import Mathlib

/-!
# Verification of the libvictor HNSW core against its specification

This file is a shallow embedding, in Lean 4, of the parts of the libvictor
C sources (`heap.c`, `map.c`, `graph.c`, `index_hnsw.c`, `index.c`,
`store.h`/`store.c`) that the specification talks about, together with
theorems that settle the specification claims.

Embedding conventions:

* C arrays are modelled as functions `Nat → α` together with an explicit
  element count, mirroring the `(heap, e)` pair of `heap.c`.
* Machine integers are modelled as `Nat` (all the relevant quantities are
  non-negative counters, sizes and identifiers).
* `float32_t` distances are an abstract type `D` ordered by the
  `is_better_match` predicate of the comparison method, exactly as the C
  core treats them ("the core treats kernels as opaque").
* Heap-allocation is assumed to succeed except where a claim is precisely
  about an allocation-failure path; there the failing allocation is an
  explicit boolean input of the function.
* `while` loops whose variant is not syntactic are run on an explicit
  fuel argument; call sites pass a fuel that dominates the loop variant,
  and when the fuel runs out the loop returns its current state.
* Pointers between graph nodes are modelled as indices into an arena
  (`List` of nodes); the `next`-pointer chain of `IndexHNSW` is modelled
  as the list of arena indices in chain order.
-/

set_option maxHeartbeats 1000000

namespace Victor

/-- Error codes of `victor.h` (enum `ErrorCode`), in declaration order. -/
inductive ErrorCode where
  | SUCCESS
  | INVALID_INIT
  | INVALID_INDEX
  | INVALID_VECTOR
  | INVALID_RESULT
  | INVALID_DIMENSIONS
  | INVALID_ARGUMENT
  | INVALID_ID
  | INVALID_REF
  | INVALID_METHOD
  | DUPLICATED_ENTRY
  | NOT_FOUND_ID
  | INDEX_EMPTY
  | THREAD_ERROR
  | SYSTEM_ERROR
  | FILEIO_ERROR
  | NOT_IMPLEMENTED
  | INVALID_FILE
deriving DecidableEq, Repr

open ErrorCode

/-! ## The bounded binary heap of `heap.c`

The C heap stores `HeapNode`s and orders them with the function pointer
`is_better_match`, branching on the mode `type` (`HEAP_BETTER_TOP` or
`HEAP_WORST_TOP`).  We embed it generically over the element type `α`;
`type = true` means `HEAP_BETTER_TOP`.  `m_size = none` is
`NOLIMIT_HEAP`; for an unlimited heap `resize_heap` always succeeds, so
`c_size` is not tracked separately (for a bounded heap `c_size = m_size`
from initialization on). -/

structure CHeap (α : Type) where
  /-- `HEAP_BETTER_TOP` when `true`, `HEAP_WORST_TOP` when `false`. -/
  type : Bool
  /-- the `is_better_match` comparator stored by `init_heap`. -/
  is_better_match : α → α → Bool
  /-- `NOLIMIT_HEAP` is `none`. -/
  m_size : Option Nat
  /-- number of elements currently stored. -/
  e : Nat
  /-- backing array; only indices `< e` are meaningful. -/
  heap : Nat → α

/-- Point update of a modelled C array. -/
def upd {α : Type} (a : Nat → α) (i : Nat) (x : α) : Nat → α :=
  fun k => if k = i then x else a k

/-- `swap(&heap[i], &heap[j])` of `heap.c`. -/
def aswap {α : Type} (a : Nat → α) (i j : Nat) : Nat → α :=
  upd (upd a i (a j)) j (a i)

@[simp] theorem upd_apply {α : Type} (a : Nat → α) (i : Nat) (x : α) (k : Nat) :
    upd a i x k = if k = i then x else a k := rfl

theorem aswap_apply {α : Type} (a : Nat → α) (i j k : Nat) :
    aswap a i j k = if k = j then a i else if k = i then a j else a k := by
  simp only [aswap, upd_apply]

/-- The promotion test of `heapify_down`/`heapify_up`: in
`HEAP_BETTER_TOP` mode a child is promoted when `is_better_match(x, y)`,
in `HEAP_WORST_TOP` mode when `!is_better_match(x, y)`. -/
def hpref {α : Type} (bt : Bool) (b : α → α → Bool) (x y : α) : Bool :=
  cond bt (b x y) (!(b x y))

/-- Intermediate target of one `heapify_down` iteration after comparing
with the left child (`heap.c`, the first `if` of the loop body). -/
def hdT1 {α : Type} (bt : Bool) (b : α → α → Bool) (e : Nat) (a : Nat → α) (i : Nat) :
    Nat :=
  if 2 * i + 1 < e ∧ hpref bt b (a (2 * i + 1)) (a i) then 2 * i + 1 else i

/-- Target choice of one `heapify_down` iteration (`heap.c`): first the
left child is compared with `i`, then the right child with the
intermediate target. -/
def hdTarget {α : Type} (bt : Bool) (b : α → α → Bool) (e : Nat) (a : Nat → α) (i : Nat) :
    Nat :=
  if 2 * i + 2 < e ∧ hpref bt b (a (2 * i + 2)) (a (hdT1 bt b e a i)) then 2 * i + 2
  else hdT1 bt b e a i

/-- The `while (1)` loop of `heapify_down`, on fuel.  The chain of
targets is strictly increasing and bounded by `e`, so fuel `e + 1`
always suffices when starting at index `0`. -/
def heapify_down_aux {α : Type} (bt : Bool) (b : α → α → Bool) (e : Nat) :
    Nat → (Nat → α) → Nat → (Nat → α)
  | 0, a, _ => a
  | fuel + 1, a, i =>
    let t := hdTarget bt b e a i
    if t = i then a else heapify_down_aux bt b e fuel (aswap a i t) t

/-- `heapify_down` of `heap.c`: restores the invariant from the root. -/
def heapify_down {α : Type} (bt : Bool) (b : α → α → Bool) (e : Nat) (a : Nat → α) :
    Nat → α :=
  heapify_down_aux bt b e (e + 1) a 0

/-- The `while (1)` loop of `heapify_up`, on fuel.  The index strictly
decreases, so fuel `i + 1` always suffices. -/
def heapify_up_aux {α : Type} (bt : Bool) (b : α → α → Bool) :
    Nat → (Nat → α) → Nat → (Nat → α)
  | 0, a, _ => a
  | fuel + 1, a, i =>
    if i = 0 then a
    else
      let p := (i - 1) / 2
      if hpref bt b (a i) (a p) then heapify_up_aux bt b fuel (aswap a i p) p else a

/-- `heapify_up` of `heap.c`, started at the last inserted index `i`. -/
def heapify_up {α : Type} (bt : Bool) (b : α → α → Bool) (a : Nat → α) (i : Nat) :
    Nat → α :=
  heapify_up_aux bt b (i + 1) a i

/-- `init_heap` of `heap.c`; `d` stands for the zeroed storage that
`calloc` provides (never read before being written). -/
def init_heap {α : Type} (bt : Bool) (b : α → α → Bool) (m : Option Nat) (d : α) :
    CHeap α :=
  ⟨bt, b, m, 0, fun _ => d⟩

/-- `heap_size`. -/
def heap_size {α : Type} (h : CHeap α) : Nat := h.e

/-- `heap_full` of `heap.c`: a heap is full iff it is bounded and
`e ≥ m_size`. -/
def heap_full {α : Type} (h : CHeap α) : Bool :=
  match h.m_size with
  | none => false
  | some m => decide (m ≤ h.e)

/-- `heap_peek`: `none` models `HEAP_ERROR_EMPTY`. -/
def heap_peek {α : Type} (h : CHeap α) : Option α :=
  if h.e = 0 then none else some (h.heap 0)

/-- `heap_insert`: `none` models `HEAP_ERROR_FULL` (for an unlimited
heap `resize_heap` always succeeds in the model). -/
def heap_insert {α : Type} (h : CHeap α) (x : α) : Option (CHeap α) :=
  if h.m_size = some h.e then none
  else some { h with
    e := h.e + 1
    heap := heapify_up h.type h.is_better_match (upd h.heap h.e x) h.e }

/-- `heap_pop`: removes and returns the root; `none` models
`HEAP_ERROR_EMPTY`.  The last element is moved to the root and
`heapify_down` is run. -/
def heap_pop {α : Type} (h : CHeap α) : Option (α × CHeap α) :=
  if h.e = 0 then none
  else some (h.heap 0, { h with
    e := h.e - 1
    heap := heapify_down h.type h.is_better_match (h.e - 1)
      (upd h.heap 0 (h.heap (h.e - 1))) })

/-- `heap_replace`: overwrites the root and runs `heapify_down`;
`none` models `HEAP_ERROR_EMPTY`. -/
def heap_replace {α : Type} (h : CHeap α) (x : α) : Option (CHeap α) :=
  if h.e = 0 then none
  else some { h with
    heap := heapify_down h.type h.is_better_match h.e (upd h.heap 0 x) }

/-- Modelled from the spec: `heap_insert_or_replace_if_better` is called
by `graph_linear_search` and `filter_subset` but its definition is not
among the provided sources.  Per the specification (§4.B): "if not full,
insert; else if `is_better(new, root)`, replace, else drop". -/
def heap_insert_or_replace_if_better {α : Type} (h : CHeap α) (x : α) : CHeap α :=
  if heap_full h then
    match heap_peek h with
    | none => h
    | some w => if h.is_better_match x w then (heap_replace h x).getD h else h
  else (heap_insert h x).getD h

/-! ### The heap ordering invariant (claim C9)

The claim supposes the comparator is a strict total order, which we take
with its three defining properties. -/

/-- A strict total order, packaged for a boolean comparator. -/
structure IsSTO {α : Type} (b : α → α → Bool) : Prop where
  irrefl : ∀ x, b x x = false
  trans : ∀ {x y z}, b x y = true → b y z = true → b x z = true
  total : ∀ {x y}, b x y = false → b y x = false → x = y

theorem IsSTO.asymm {α : Type} {b : α → α → Bool} (hb : IsSTO b) {x y : α}
    (h : b x y = true) : b y x = false := by
  cases hyx : b y x with
  | false => rfl
  | true => exact absurd (hb.trans h hyx) (by simp [hb.irrefl x])

/-- `x` dominates `y` in mode `bt`: in better-top mode `y` does not beat
`x`, in worst-top mode `x` does not beat `y`.  The heap keeps every
parent dominating its children. -/
def hdom {α : Type} (bt : Bool) (b : α → α → Bool) (x y : α) : Prop :=
  cond bt (b y x = false) (b x y = false)

theorem hdom_refl {α : Type} {b : α → α → Bool} (hb : IsSTO b) (bt : Bool) (x : α) :
    hdom bt b x x := by
  cases bt <;> exact hb.irrefl x

theorem hdom_trans {α : Type} {b : α → α → Bool} (hb : IsSTO b) {bt : Bool} {x y z : α}
    (h1 : hdom bt b x y) (h2 : hdom bt b y z) : hdom bt b x z := by
  cases bt
  · -- worst-top: `b x y = false`, `b y z = false` entail `b x z = false`
    have h1' : b x y = false := h1
    have h2' : b y z = false := h2
    show b x z = false
    cases hxz : b x z with
    | false => rfl
    | true =>
      cases hzy : b z y with
      | true => exact absurd (hb.trans hxz hzy) (by simp [h1'])
      | false =>
        have hyz : y = z := hb.total h2' hzy
        rw [← hyz] at hxz
        exact absurd hxz (by simp [h1'])
  · -- better-top: `b y x = false`, `b z y = false` entail `b z x = false`
    have h1' : b y x = false := h1
    have h2' : b z y = false := h2
    show b z x = false
    cases hzx : b z x with
    | false => rfl
    | true =>
      cases hyz : b y z with
      | true => exact absurd (hb.trans hyz hzx) (by simp [h1'])
      | false =>
        have hyzeq : y = z := hb.total hyz h2'
        rw [← hyzeq] at hzx
        exact absurd hzx (by simp [h1'])

theorem hpref_false_dom {α : Type} {b : α → α → Bool} (hb : IsSTO b) {bt : Bool} {x y : α}
    (h : hpref bt b x y = false) : hdom bt b y x := by
  cases bt
  · have h' : b x y = true := by
      have : (!(b x y)) = false := h
      simpa using this
    exact hb.asymm h'
  · exact h

theorem hpref_true_dom {α : Type} {b : α → α → Bool} (hb : IsSTO b) {bt : Bool} {x y : α}
    (h : hpref bt b x y = true) : hdom bt b x y := by
  cases bt
  · have h' : (!(b x y)) = true := h
    show b x y = false
    simpa using h'
  · exact hb.asymm h

theorem hpref_mixed_dom {α : Type} {b : α → α → Bool} (hb : IsSTO b) {bt : Bool} {x y z : α}
    (hx : hpref bt b x z = true) (hy : hpref bt b y z = false) : hdom bt b x y := by
  cases bt
  · -- worst-top: `b x z = false`, `b y z = true` entail `b x y = false`
    have hx' : b x z = false := by
      have : (!(b x z)) = true := hx
      simpa using this
    have hy' : b y z = true := by
      have : (!(b y z)) = false := hy
      simpa using this
    show b x y = false
    cases hxy : b x y with
    | false => rfl
    | true => exact absurd (hb.trans hxy hy') (by simp [hx'])
  · -- better-top: `b x z = true`, `b y z = false` entail `b y x = false`
    have hx' : b x z = true := hx
    have hy' : b y z = false := hy
    show b y x = false
    cases hyx : b y x with
    | false => rfl
    | true => exact absurd (hb.trans hyx hx') (by simp [hy'])

theorem parent_lt {j : Nat} (hj : 0 < j) : (j - 1) / 2 < j := by omega

theorem child_iff {i j : Nat} (hj : 0 < j) :
    (j - 1) / 2 = i ↔ j = 2 * i + 1 ∨ j = 2 * i + 2 := by omega

/-- The binary-heap ordering invariant of `heap.c`: each stored parent
dominates its stored children. -/
def heapInv {α : Type} (bt : Bool) (b : α → α → Bool) (e : Nat) (a : Nat → α) : Prop :=
  ∀ i : Nat, 0 < i → i < e → hdom bt b (a ((i - 1) / 2)) (a i)

/-- Full case analysis of the `heapify_down` target choice: either the
loop stops (`t = i`, and then no in-range child is promoted over `i`),
or the target is an in-range child that dominates both `a i` and its
in-range sibling. -/
theorem hdTarget_analysis {α : Type} {b : α → α → Bool} (hb : IsSTO b) (bt : Bool)
    (e : Nat) (a : Nat → α) (i : Nat) :
    (hdTarget bt b e a i = i ∧
      ∀ c, c < e → (c = 2 * i + 1 ∨ c = 2 * i + 2) → hpref bt b (a c) (a i) = false) ∨
    (hdTarget bt b e a i ≠ i ∧
      (hdTarget bt b e a i = 2 * i + 1 ∨ hdTarget bt b e a i = 2 * i + 2) ∧
      hdTarget bt b e a i < e ∧
      hdom bt b (a (hdTarget bt b e a i)) (a i) ∧
      ∀ s, s < e → (s = 2 * i + 1 ∨ s = 2 * i + 2) → s ≠ hdTarget bt b e a i →
        hdom bt b (a (hdTarget bt b e a i)) (a s)) := by
  have bfalse : ∀ {A : Prop} {x : Bool}, ¬(A ∧ x = true) → A → x = false := by
    intro A x h ha
    cases hx : x with
    | false => rfl
    | true => exact absurd ⟨ha, hx⟩ h
  by_cases hL : 2 * i + 1 < e ∧ hpref bt b (a (2 * i + 1)) (a i) = true
  · have e1 : hdT1 bt b e a i = 2 * i + 1 := by unfold hdT1; rw [if_pos hL]
    by_cases hR : 2 * i + 2 < e ∧ hpref bt b (a (2 * i + 2)) (a (2 * i + 1)) = true
    · have eT : hdTarget bt b e a i = 2 * i + 2 := by
        unfold hdTarget; rw [e1, if_pos hR]
      rw [eT]
      refine Or.inr ⟨by omega, Or.inr rfl, hR.1, ?_, ?_⟩
      · exact hdom_trans hb (hpref_true_dom hb hR.2) (hpref_true_dom hb hL.2)
      · intro s _ hsf hsne
        have hs : s = 2 * i + 1 := by omega
        rw [hs]
        exact hpref_true_dom hb hR.2
    · have eT : hdTarget bt b e a i = 2 * i + 1 := by
        unfold hdTarget; rw [e1, if_neg hR]
      rw [eT]
      refine Or.inr ⟨by omega, Or.inl rfl, hL.1, hpref_true_dom hb hL.2, ?_⟩
      intro s hse hsf hsne
      have hs : s = 2 * i + 2 := by omega
      subst hs
      exact hpref_false_dom hb (bfalse hR hse)
  · have e1 : hdT1 bt b e a i = i := by unfold hdT1; rw [if_neg hL]
    by_cases hR : 2 * i + 2 < e ∧ hpref bt b (a (2 * i + 2)) (a i) = true
    · have eT : hdTarget bt b e a i = 2 * i + 2 := by
        unfold hdTarget; rw [e1, if_pos hR]
      rw [eT]
      refine Or.inr ⟨by omega, Or.inr rfl, hR.1, hpref_true_dom hb hR.2, ?_⟩
      intro s hse hsf hsne
      have hs : s = 2 * i + 1 := by omega
      subst hs
      exact hpref_mixed_dom hb hR.2 (bfalse hL hse)
    · have eT : hdTarget bt b e a i = i := by
        unfold hdTarget; rw [e1, if_neg hR]
      rw [eT]
      refine Or.inl ⟨rfl, ?_⟩
      intro c hce hcf
      rcases hcf with hc | hc <;> subst hc
      · exact bfalse hL hce
      · exact bfalse hR hce

theorem heapify_up_aux_inv {α : Type} {b : α → α → Bool} (hb : IsSTO b) (bt : Bool) (e : Nat) :
    ∀ (fuel : Nat) (a : Nat → α) (i : Nat), i < fuel → i < e →
      (∀ j, 0 < j → j < e → j ≠ i → hdom bt b (a ((j - 1) / 2)) (a j)) →
      (0 < i → ∀ c, c < e → (c = 2 * i + 1 ∨ c = 2 * i + 2) →
        hdom bt b (a ((i - 1) / 2)) (a c)) →
      heapInv bt b e (heapify_up_aux bt b fuel a i) := by
  intro fuel
  induction fuel with
  | zero => intro a i hif _ _ _; exact absurd hif (by omega)
  | succ fuel ih =>
    intro a i hif hie h1 h2
    simp only [heapify_up_aux]
    by_cases hi0 : i = 0
    · subst hi0
      simp only [if_pos rfl]
      intro j hj0 hje
      exact h1 j hj0 hje (by omega)
    · simp only [if_neg hi0]
      have hipos : 0 < i := Nat.pos_of_ne_zero hi0
      have hpi : (i - 1) / 2 < i := parent_lt hipos
      by_cases hpr : hpref bt b (a i) (a ((i - 1) / 2)) = true
      · rw [if_pos hpr]
        set p := (i - 1) / 2 with hp
        have vi : aswap a i p i = a p := by
          rw [aswap_apply]; rw [if_neg (by omega : ¬ i = p), if_pos rfl]
        have vp : aswap a i p p = a i := by
          rw [aswap_apply]; rw [if_pos rfl]
        have vother : ∀ k, k ≠ i → k ≠ p → aswap a i p k = a k := by
          intro k hk1 hk2
          rw [aswap_apply]; rw [if_neg hk2, if_neg hk1]
        apply ih (aswap a i p) p (by omega) (by omega)
        · -- the invariant holds everywhere except possibly at `p`
          intro j hj0 hje hjp
          by_cases hji : j = i
          · subst hji
            rw [← hp, vp, vi]
            exact hpref_true_dom hb hpr
          · by_cases hpjp : (j - 1) / 2 = p
            · rw [hpjp, vp, vother j hji hjp]
              have base : hdom bt b (a i) (a p) := hpref_true_dom hb hpr
              have step : hdom bt b (a p) (a j) := by
                have := h1 j hj0 hje hji
                rwa [hpjp] at this
              exact hdom_trans hb base step
            · by_cases hpji : (j - 1) / 2 = i
              · have hj_form := (child_iff hj0).mp hpji
                have hjp2 : j ≠ p := by omega
                rw [hpji, vi, vother j hji hjp2]
                exact h2 hipos j hje hj_form
              · rw [vother _ hpji hpjp, vother j hji hjp]
                exact h1 j hj0 hje hji
        · -- the parent of `p` dominates `p`'s children in the swapped array
          intro hp0 c hce hcf
          have hppp : (p - 1) / 2 < p := parent_lt hp0
          have vpp : aswap a i p ((p - 1) / 2) = a ((p - 1) / 2) :=
            vother _ (by omega) (by omega)
          have base : hdom bt b (a ((p - 1) / 2)) (a p) := h1 p hp0 (by omega) (by omega)
          by_cases hci : c = i
          · subst hci
            rw [vpp, vi]
            exact base
          · have hcp : c ≠ p := by omega
            rw [vpp, vother c hci hcp]
            have step : hdom bt b (a p) (a c) := by
              have := h1 c (by omega) hce hci
              have hpc : (c - 1) / 2 = p := by omega
              rwa [hpc] at this
            exact hdom_trans hb base step
      · rw [if_neg hpr]
        intro j hj0 hje
        by_cases hji : j = i
        · subst hji
          exact hpref_false_dom hb (by
            cases hx : hpref bt b (a j) (a ((j - 1) / 2)) with
            | false => rfl
            | true => exact absurd hx hpr)
        · exact h1 j hj0 hje hji

theorem heapify_down_aux_inv {α : Type} {b : α → α → Bool} (hb : IsSTO b) (bt : Bool)
    (e : Nat) :
    ∀ (fuel : Nat) (a : Nat → α) (i : Nat), e - i < fuel → i < e →
      (∀ j, 0 < j → j < e → (j - 1) / 2 ≠ i → hdom bt b (a ((j - 1) / 2)) (a j)) →
      (0 < i → ∀ c, c < e → (c = 2 * i + 1 ∨ c = 2 * i + 2) →
        hdom bt b (a ((i - 1) / 2)) (a c)) →
      heapInv bt b e (heapify_down_aux bt b e fuel a i) := by
  intro fuel
  induction fuel with
  | zero => intro a i hif _ _ _; exact absurd hif (by omega)
  | succ fuel ih =>
    intro a i hif hie h1 h2
    simp only [heapify_down_aux]
    rcases hdTarget_analysis hb bt e a i with ⟨ht, hstable⟩ | ⟨hne, hform, hlt, hroot, hsib⟩
    · rw [ht, if_pos rfl]
      intro j hj0 hje
      by_cases hpji : (j - 1) / 2 = i
      · have hj_form := (child_iff hj0).mp hpji
        rw [hpji]
        exact hpref_false_dom hb (hstable j hje hj_form)
      · exact h1 j hj0 hje hpji
    · rw [if_neg hne]
      set t := hdTarget bt b e a i with htdef
      have hti : i < t := by omega
      have vi : aswap a i t i = a t := by
        rw [aswap_apply]; rw [if_neg (by omega : ¬ i = t), if_pos rfl]
      have vt : aswap a i t t = a i := by
        rw [aswap_apply]; rw [if_pos rfl]
      have vother : ∀ k, k ≠ i → k ≠ t → aswap a i t k = a k := by
        intro k hk1 hk2
        rw [aswap_apply]; rw [if_neg hk2, if_neg hk1]
      have hpt : (t - 1) / 2 = i := (child_iff (by omega)).mpr hform
      apply ih (aswap a i t) t (by omega) hlt
      · -- the invariant holds on every edge not out of `t`
        intro j hj0 hje hpjt
        by_cases hjt : j = t
        · subst hjt
          rw [hpt, vi, vt]
          exact hroot
        · by_cases hpji : (j - 1) / 2 = i
          · -- `j` is the sibling of `t`
            have hj_form := (child_iff hj0).mp hpji
            have hjne : j ≠ i := by omega
            rw [hpji, vi, vother j hjne hjt]
            exact hsib j hje hj_form hjt
          · by_cases hji : j = i
            · subst hji
              have hppj : (j - 1) / 2 ≠ t := by
                have := parent_lt hj0; omega
              rw [vother _ (by have := parent_lt hj0; omega) hppj, vi]
              exact h2 hj0 t hlt hform
            · rw [vother _ hpji hpjt, vother j hji hjt]
              exact h1 j hj0 hje hpji
      · -- the new parent of `t` (the old `a t` now at `i`) dominates
        -- `t`'s children, which kept their old values
        intro _ g hge hgf
        have hgt : g ≠ t := by omega
        have hgi : g ≠ i := by omega
        rw [hpt, vi, vother g hgi hgt]
        have := h1 g (by omega) hge (by
          have : (g - 1) / 2 = t := (child_iff (by omega)).mpr hgf
          omega)
        have hpg : (g - 1) / 2 = t := (child_iff (by omega)).mpr hgf
        rwa [hpg] at this

/-- `heap_insert` preserves the ordering invariant. -/
theorem heapInv_insert {α : Type} {b : α → α → Bool} (hb : IsSTO b) {bt : Bool}
    {e : Nat} {a : Nat → α} (hinv : heapInv bt b e a) (x : α) :
    heapInv bt b (e + 1) (heapify_up bt b (upd a e x) e) := by
  apply heapify_up_aux_inv hb bt (e + 1) (e + 1) (upd a e x) e (by omega) (by omega)
  · intro j hj0 hje hjne
    have hje' : j < e := by omega
    have hpj : (j - 1) / 2 < j := parent_lt hj0
    rw [upd_apply, upd_apply, if_neg (by omega : ¬ (j - 1) / 2 = e), if_neg hjne]
    exact hinv j hj0 hje'
  · intro _ c hce hcf
    exact absurd hce (by omega)

/-- Moving the last element to the root and sifting down (the body of
`heap_pop`) preserves the ordering invariant on the shrunk heap. -/
theorem heapInv_pop {α : Type} {b : α → α → Bool} (hb : IsSTO b) {bt : Bool}
    {e : Nat} {a : Nat → α} (hinv : heapInv bt b e a) :
    heapInv bt b (e - 1) (heapify_down bt b (e - 1) (upd a 0 (a (e - 1)))) := by
  by_cases he : e - 1 = 0
  · intro j hj0 hje
    exact absurd hje (by omega)
  · rw [heapify_down]
    apply heapify_down_aux_inv hb bt (e - 1) (e - 1 + 1) _ 0 (by omega) (by omega)
    · intro j hj0 hje hpj
      rw [upd_apply, upd_apply, if_neg hpj, if_neg (by omega : ¬ j = 0)]
      exact hinv j hj0 (by omega)
    · intro h0; exact absurd h0 (by omega)

/-- Overwriting the root and sifting down (the body of `heap_replace`)
preserves the ordering invariant. -/
theorem heapInv_replace {α : Type} {b : α → α → Bool} (hb : IsSTO b) {bt : Bool}
    {e : Nat} {a : Nat → α} (hinv : heapInv bt b e a) (x : α) (he : 0 < e) :
    heapInv bt b e (heapify_down bt b e (upd a 0 x)) := by
  rw [heapify_down]
  apply heapify_down_aux_inv hb bt e (e + 1) _ 0 (by omega) he
  · intro j hj0 hje hpj
    rw [upd_apply, upd_apply, if_neg hpj, if_neg (by omega : ¬ j = 0)]
    exact hinv j hj0 hje
  · intro h0; exact absurd h0 (by omega)

/-- From the ordering invariant, the root dominates every stored
element. -/
theorem heapInv_root_dom {α : Type} {b : α → α → Bool} (hb : IsSTO b) {bt : Bool}
    {e : Nat} {a : Nat → α} (hinv : heapInv bt b e a) :
    ∀ j, j < e → hdom bt b (a 0) (a j) := by
  intro j
  induction j using Nat.strong_induction_on with
  | _ j ih =>
    intro hje
    rcases Nat.eq_zero_or_pos j with hj0 | hj0
    · subst hj0; exact hdom_refl hb bt (a 0)
    · have hpj : (j - 1) / 2 < j := parent_lt hj0
      exact hdom_trans hb (ih _ hpj (by omega)) (hinv j hj0 hje)

/-- The operations the claim quantifies over. -/
inductive HeapOp (α : Type) where
  | ins : α → HeapOp α
  | pop : HeapOp α
  | rep : α → HeapOp α

/-- One heap operation; a failing operation (`HEAP_ERROR_FULL`,
`HEAP_ERROR_EMPTY`) leaves the heap unchanged. -/
def heap_apply {α : Type} (h : CHeap α) : HeapOp α → CHeap α
  | .ins x => (heap_insert h x).getD h
  | .pop =>
    match heap_pop h with
    | none => h
    | some (_, h') => h'
  | .rep x => (heap_replace h x).getD h

/-- A sequence of heap operations. -/
def heap_run {α : Type} (h : CHeap α) (ops : List (HeapOp α)) : CHeap α :=
  ops.foldl heap_apply h

theorem heap_apply_type {α : Type} (h : CHeap α) (op : HeapOp α) :
    (heap_apply h op).type = h.type := by
  cases op with
  | ins x =>
    simp only [heap_apply, heap_insert]
    by_cases hc : h.m_size = some h.e
    · rw [if_pos hc]; rfl
    · rw [if_neg hc]; rfl
  | pop =>
    simp only [heap_apply, heap_pop]
    by_cases he : h.e = 0
    · rw [if_pos he]
    · rw [if_neg he]
  | rep x =>
    simp only [heap_apply, heap_replace]
    by_cases he : h.e = 0
    · rw [if_pos he]; rfl
    · rw [if_neg he]; rfl

theorem heap_apply_cmp {α : Type} (h : CHeap α) (op : HeapOp α) :
    (heap_apply h op).is_better_match = h.is_better_match := by
  cases op with
  | ins x =>
    simp only [heap_apply, heap_insert]
    by_cases hc : h.m_size = some h.e
    · rw [if_pos hc]; rfl
    · rw [if_neg hc]; rfl
  | pop =>
    simp only [heap_apply, heap_pop]
    by_cases he : h.e = 0
    · rw [if_pos he]
    · rw [if_neg he]
  | rep x =>
    simp only [heap_apply, heap_replace]
    by_cases he : h.e = 0
    · rw [if_pos he]; rfl
    · rw [if_neg he]; rfl

theorem heapInv_apply {α : Type} (h : CHeap α) (hb : IsSTO h.is_better_match)
    (hinv : heapInv h.type h.is_better_match h.e h.heap) (op : HeapOp α) :
    heapInv (heap_apply h op).type (heap_apply h op).is_better_match
      (heap_apply h op).e (heap_apply h op).heap := by
  rw [heap_apply_type, heap_apply_cmp]
  cases op with
  | ins x =>
    simp only [heap_apply, heap_insert]
    by_cases hc : h.m_size = some h.e
    · rw [if_pos hc]; exact hinv
    · rw [if_neg hc]; exact heapInv_insert hb hinv x
  | pop =>
    simp only [heap_apply, heap_pop]
    by_cases he : h.e = 0
    · rw [if_pos he]; exact hinv
    · rw [if_neg he]; exact heapInv_pop hb hinv
  | rep x =>
    simp only [heap_apply, heap_replace]
    by_cases he : h.e = 0
    · rw [if_pos he]; exact hinv
    · rw [if_neg he]; exact heapInv_replace hb hinv x (by omega)

theorem heap_run_type {α : Type} (h : CHeap α) (ops : List (HeapOp α)) :
    (heap_run h ops).type = h.type := by
  induction ops generalizing h with
  | nil => rfl
  | cons op ops ih =>
    rw [heap_run, List.foldl_cons, ← heap_run, ih, heap_apply_type]

theorem heap_run_cmp {α : Type} (h : CHeap α) (ops : List (HeapOp α)) :
    (heap_run h ops).is_better_match = h.is_better_match := by
  induction ops generalizing h with
  | nil => rfl
  | cons op ops ih =>
    rw [heap_run, List.foldl_cons, ← heap_run, ih, heap_apply_cmp]

theorem heapInv_run {α : Type} (h : CHeap α) (hb : IsSTO h.is_better_match)
    (hinv : heapInv h.type h.is_better_match h.e h.heap) (ops : List (HeapOp α)) :
    heapInv (heap_run h ops).type (heap_run h ops).is_better_match
      (heap_run h ops).e (heap_run h ops).heap := by
  induction ops generalizing h with
  | nil => exact hinv
  | cons op ops ih =>
    rw [heap_run, List.foldl_cons, ← heap_run]
    exact ih (heap_apply h op)
      (by rw [heap_apply_cmp]; exact hb)
      (heapInv_apply h hb hinv op)

/-- C9: for every heap created by `init_heap` with a comparator that is
a strict total order, after any sequence of `heap_insert`, `heap_pop`
and `heap_replace` operations, the root of a non-empty heap (returned by
`heap_peek`) is, in best-top mode, an element that no stored element
beats under `is_better`, and in worst-top mode an element that beats no
stored element under `is_better`. -/
theorem claim_C9_heap_root_order {α : Type} (b : α → α → Bool) (hb : IsSTO b)
    (bt : Bool) (m : Option Nat) (d : α) (ops : List (HeapOp α)) (r : α)
    (hr : heap_peek (heap_run (init_heap bt b m d) ops) = some r) :
    ∀ j, j < heap_size (heap_run (init_heap bt b m d) ops) →
      (bt = true → b ((heap_run (init_heap bt b m d) ops).heap j) r = false) ∧
      (bt = false → b r ((heap_run (init_heap bt b m d) ops).heap j) = false) := by
  intro j hj
  set H := heap_run (init_heap bt b m d) ops with hH
  have hty : H.type = bt := by rw [hH, heap_run_type]; rfl
  have hcmp : H.is_better_match = b := by rw [hH, heap_run_cmp]; rfl
  have hinv : heapInv H.type H.is_better_match H.e H.heap := by
    apply heapInv_run
    · exact hb
    · intro i _ hie
      exact absurd hie (by simp [init_heap])
  have hne : H.e ≠ 0 := by
    intro h0
    rw [heap_peek, if_pos h0] at hr
    exact Option.noConfusion hr
  have hroot : r = H.heap 0 := by
    rw [heap_peek, if_neg hne] at hr
    exact ((Option.some.injEq _ _).mp hr).symm
  rw [hty, hcmp] at hinv
  have hdomr := heapInv_root_dom hb hinv j hj
  subst hroot
  cases bt
  · exact ⟨fun h => Bool.noConfusion h, fun _ => hdomr⟩
  · exact ⟨fun _ => hdomr, fun h => Bool.noConfusion h⟩

/-- Witness for C9 at a concrete best-top heap over `Nat` ordered by
`<`: after inserting 5, 2 and 8, the peeked root 2 is beaten by no
stored element. -/
theorem claim_C9_heap_root_order_witness :
    IsSTO (fun x y : Nat => decide (x < y)) ∧
    heap_peek (heap_run (init_heap true (fun x y : Nat => decide (x < y)) (some 10) 0)
        [HeapOp.ins 5, HeapOp.ins 2, HeapOp.ins 8]) = some 2 ∧
    ∀ j, j < heap_size (heap_run (init_heap true (fun x y : Nat => decide (x < y)) (some 10) 0)
        [HeapOp.ins 5, HeapOp.ins 2, HeapOp.ins 8]) →
      (true = true → (fun x y : Nat => decide (x < y))
        ((heap_run (init_heap true (fun x y : Nat => decide (x < y)) (some 10) 0)
          [HeapOp.ins 5, HeapOp.ins 2, HeapOp.ins 8]).heap j) 2 = false) ∧
      (true = false → (fun x y : Nat => decide (x < y)) 2
        ((heap_run (init_heap true (fun x y : Nat => decide (x < y)) (some 10) 0)
          [HeapOp.ins 5, HeapOp.ins 2, HeapOp.ins 8]).heap j) = false) := by
  have hb : IsSTO (fun x y : Nat => decide (x < y)) := by
    constructor
    · intro x; simp
    · intro x y z h1 h2; simp at *; omega
    · intro x y h1 h2; simp at *; omega
  refine ⟨hb, by decide, ?_⟩
  exact claim_C9_heap_root_order _ hb true (some 10) 0
    [HeapOp.ins 5, HeapOp.ins 2, HeapOp.ins 8] 2 (by decide)

/-! ## The id map of `map.c`

An open-chained hash table from 64-bit ids to 64-bit values.  Buckets
are singly-linked lists, new entries are prepended, `map_hash` is
`key % mapsize`, and `map_insert` doubles and redistributes the buckets
when the load factor exceeds the threshold. -/

structure CMap where
  mapsize : Nat
  /-- the bucket array; `buckets.length = mapsize` for a well-formed map. -/
  buckets : List (List (Nat × Nat))
  lfactor_thrhold : Nat
  elements : Nat

/-- `map_hash` of `map.c`. -/
def map_hash (m : CMap) (key : Nat) : Nat := key % m.mapsize

/-- `LOAD_FACTOR` of `map.c` (integer division). -/
def load_factor (m : CMap) : Nat :=
  if m.mapsize = 0 then 0 else m.elements / m.mapsize

/-- `init_map` of `map.c`. -/
def init_map (initial_size : Nat) (thr : Nat) : CMap :=
  ⟨initial_size, List.replicate initial_size [], thr, 0⟩

/-- `map_has` of `map.c`: walks the chain of the hashed bucket. -/
def map_has (m : CMap) (key : Nat) : Bool :=
  (m.buckets.getD (map_hash m key) []).any (fun kv => kv.1 == key)

/-- `map_get_safe` of `map.c`: first value stored under `key` in the
hashed bucket, `none` for `MAP_KEY_NOT_FOUND`. -/
def map_get_safe (m : CMap) (key : Nat) : Option Nat :=
  ((m.buckets.getD (map_hash m key) []).find? (fun kv => kv.1 == key)).map Prod.snd

/-- `map_get_p` of `map.c`: like `map_get_safe` with `NULL` for a
missing key (`none` here). -/
def map_get_p (m : CMap) (key : Nat) : Option Nat := map_get_safe m key

/-- The chain walk of `map_remove_safe`: unlink the first entry with the
given key, returning its value and the shortened chain. -/
def bucket_remove : List (Nat × Nat) → Nat → Option (Nat × List (Nat × Nat))
  | [], _ => none
  | kv :: rest, key =>
    if kv.1 = key then some (kv.2, rest)
    else (bucket_remove rest key).map (fun vl => (vl.1, kv :: vl.2))

/-- `map_remove_safe` of `map.c`: `none` is `MAP_KEY_NOT_FOUND`; on
success the element count is decremented. -/
def map_remove_safe (m : CMap) (key : Nat) : Option (Nat × CMap) :=
  match bucket_remove (m.buckets.getD (map_hash m key) []) key with
  | none => none
  | some (v, l) =>
    some (v, { m with
      buckets := m.buckets.set (map_hash m key) l
      elements := m.elements - 1 })

/-- `map_rehash` of `map.c`.  The C loop walks every old bucket in
order and prepends each entry to its new bucket, so new bucket `j` ends
up holding, in reverse traversal order, exactly the entries whose key
hashes to `j` modulo the new size. -/
def map_rehash (m : CMap) (new_mapsize : Nat) : CMap :=
  { mapsize := new_mapsize
    buckets := (List.range new_mapsize).map
      (fun j => ((m.buckets.flatten).filter (fun kv => kv.1 % new_mapsize == j)).reverse)
    lfactor_thrhold := m.lfactor_thrhold
    elements := m.elements }

/-- `map_insert` of `map.c`: optional rehash, then prepend to the
hashed bucket and bump the count. -/
def map_insert (m : CMap) (key value : Nat) : CMap :=
  let m1 := if m.lfactor_thrhold < load_factor m then map_rehash m (m.mapsize * 2) else m
  let i := map_hash m1 key
  { m1 with
    buckets := m1.buckets.set i ((key, value) :: m1.buckets.getD i [])
    elements := m1.elements + 1 }

/-- Number of entries stored under `key`, across all buckets. -/
def map_count (m : CMap) (key : Nat) : Nat :=
  (m.buckets.flatten).countP (fun kv => kv.1 == key)

/-- Total number of entries physically stored in the buckets. -/
def map_entries (m : CMap) : Nat := (m.buckets.flatten).length

/-- Well-formedness of a `CMap`: positive size, bucket array of the
right length, every entry sitting in the bucket its key hashes to, and
the `elements` counter agreeing with the stored entries. -/
structure MapWF (m : CMap) : Prop where
  size_pos : 0 < m.mapsize
  len : m.buckets.length = m.mapsize
  placed : ∀ i, i < m.buckets.length →
    ∀ kv ∈ m.buckets.getD i [], kv.1 % m.mapsize = i
  count : m.elements = map_entries m

/-! ### Bucket arithmetic helpers -/

theorem getD_set_self {β : Type} (bs : List β) (i : Nat) (x d : β) (h : i < bs.length) :
    (bs.set i x).getD i d = x := by
  rw [List.getD_eq_getElem _ _ (by simpa using h)]
  simp [List.getElem_set, h]

theorem getD_set_ne {β : Type} (bs : List β) {i j : Nat} (x d : β) (h : i ≠ j) :
    (bs.set i x).getD j d = bs.getD j d := by
  by_cases hj : j < bs.length
  · rw [List.getD_eq_getElem _ _ (by simpa using hj), List.getD_eq_getElem _ _ hj]
    simp [List.getElem_set, h]
  · rw [List.getD_eq_default _ _ (by simpa using Nat.le_of_not_lt hj),
      List.getD_eq_default _ _ (Nat.le_of_not_lt hj)]

theorem sum_map_set {β : Type} (f : List β → Nat) :
    ∀ (bs : List (List β)) (i : Nat) (l' : List β), i < bs.length →
      ((bs.set i l').map f).sum + f (bs.getD i []) = (bs.map f).sum + f l' := by
  intro bs
  induction bs with
  | nil => intro i l' h; simp at h
  | cons b bs ih =>
    intro i l' h
    cases i with
    | zero => simp; omega
    | succ i =>
      simp only [List.set_cons_succ, List.map_cons, List.sum_cons, List.getD_cons_succ]
      have := ih i l' (by simpa using h)
      omega

theorem sum_map_add {β : Type} (L : List β) (g h : β → Nat) :
    (L.map (fun x => g x + h x)).sum = (L.map g).sum + (L.map h).sum := by
  induction L with
  | nil => rfl
  | cons a L ih => simp only [List.map_cons, List.sum_cons, ih]; omega

theorem sum_range_ite {t n c : Nat} (h : t < n) :
    ((List.range n).map (fun j => if j = t then c else 0)).sum = c := by
  induction n with
  | zero => omega
  | succ n ih =>
    rw [List.range_succ, List.map_append, List.sum_append]
    by_cases ht : t = n
    · subst ht
      have hz : ((List.range t).map (fun j => if j = t then c else 0)).sum = 0 := by
        apply List.sum_eq_zero
        intro x hx
        rcases List.mem_map.mp hx with ⟨j, hj, rfl⟩
        rw [if_neg (by have := List.mem_range.mp hj; omega)]
      simp [hz]
    · have := ih (by omega)
      simp [this, Ne.symm ht, ht]

theorem sum_range_countP_hash {β : Type} (n : Nat) (f : β → Nat) (E : List β)
    (hf : ∀ x ∈ E, f x < n) :
    ((List.range n).map (fun j => E.countP (fun x => f x == j))).sum = E.length := by
  induction E with
  | nil =>
    simp only [List.countP_nil, List.length_nil]
    exact List.sum_eq_zero (by
      intro x hx
      rcases List.mem_map.mp hx with ⟨j, _, rfl⟩
      rfl)
  | cons a E ih =>
    have ha : f a < n := hf a (List.mem_cons_self a E)
    have hE : ∀ x ∈ E, f x < n := fun x hx => hf x (List.mem_cons_of_mem _ hx)
    have hcons : ∀ j : Nat, (a :: E).countP (fun x => f x == j) =
        E.countP (fun x => f x == j) + (if j = f a then 1 else 0) := by
      intro j
      rw [List.countP_cons]
      congr 1
      by_cases hj : f a = j
      · simp [hj]
      · rw [if_neg (by simpa using hj), if_neg (fun hc => hj hc.symm)]
    rw [List.map_congr_left (fun j _ => hcons j), sum_map_add, ih hE, sum_range_ite ha,
      List.length_cons]

/-! ### Properties of the map operations -/

theorem map_rehash_bucket (m : CMap) {n i : Nat} (hi : i < n) :
    (map_rehash m n).buckets.getD i [] =
      ((m.buckets.flatten).filter (fun kv => kv.1 % n == i)).reverse := by
  rw [List.getD_eq_getElem _ _ (by simpa [map_rehash] using hi)]
  simp [map_rehash]

theorem map_rehash_entries (m : CMap) {n : Nat} (hn : 0 < n) :
    map_entries (map_rehash m n) = map_entries m := by
  rw [map_entries, List.length_flatten, map_rehash]
  simp only [List.map_map]
  have : ∀ j ∈ List.range n,
      (List.length ∘ fun j =>
        ((m.buckets.flatten).filter (fun kv => kv.1 % n == j)).reverse) j =
      (m.buckets.flatten).countP (fun kv => kv.1 % n == j) := by
    intro j _
    simp [List.countP_eq_length_filter]
  rw [List.map_congr_left this]
  exact sum_range_countP_hash n (fun kv : Nat × Nat => kv.1 % n) m.buckets.flatten
    (fun x _ => Nat.mod_lt _ hn)

theorem map_rehash_count (m : CMap) {n : Nat} (hn : 0 < n) (k : Nat) :
    map_count (map_rehash m n) k = map_count m k := by
  rw [map_count, List.countP_flatten, map_rehash]
  simp only [List.map_map]
  have hpt : ∀ j ∈ List.range n,
      (List.countP (fun kv => kv.1 == k) ∘ fun j =>
        ((m.buckets.flatten).filter (fun kv => kv.1 % n == j)).reverse) j =
      if j = k % n then map_count m k else 0 := by
    intro j _
    simp only [Function.comp_apply, List.countP_reverse, List.countP_filter]
    by_cases hj : j = k % n
    · subst hj
      rw [if_pos rfl, map_count]
      congr 1
      funext kv
      by_cases hk : kv.1 = k
      · simp [hk]
      · simp [hk]
    · rw [if_neg hj]
      apply List.countP_eq_zero.mpr
      intro kv _
      simp only [Bool.and_eq_true, beq_iff_eq]
      rintro ⟨hk, hh⟩
      exact hj (by rw [← hh, hk])
  rw [List.map_congr_left hpt, sum_range_ite (Nat.mod_lt _ hn)]

theorem map_rehash_wf {m : CMap} (hwf : MapWF m) {n : Nat} (hn : 0 < n) :
    MapWF (map_rehash m n) := by
  constructor
  · exact hn
  · simp [map_rehash]
  · intro i hi kv hkv
    have hi' : i < n := by simpa [map_rehash] using hi
    rw [map_rehash_bucket m hi'] at hkv
    have := (List.mem_filter.mp (List.mem_reverse.mp hkv)).2
    show kv.1 % (map_rehash m n).mapsize = i
    simpa [map_rehash] using this
  · show m.elements = _
    rw [map_rehash_entries m hn]
    exact hwf.count

/-- The bucket-prepend step shared by both branches of `map_insert`. -/
theorem map_prepend_wf {m1 : CMap} (hwf : MapWF m1) (k v : Nat) :
    MapWF { m1 with
      buckets := m1.buckets.set (map_hash m1 k)
        ((k, v) :: m1.buckets.getD (map_hash m1 k) [])
      elements := m1.elements + 1 } := by
  have hhash : map_hash m1 k < m1.buckets.length := by
    rw [hwf.len]; exact Nat.mod_lt _ hwf.size_pos
  constructor
  · exact hwf.size_pos
  · simpa using hwf.len
  · intro i hi kv hkv
    simp only [List.length_set] at hi
    by_cases hik : i = map_hash m1 k
    · subst hik
      rw [getD_set_self _ _ _ _ hhash] at hkv
      rcases List.mem_cons.mp hkv with hkv | hkv
      · subst hkv; rfl
      · exact hwf.placed _ hi kv hkv
    · rw [getD_set_ne _ _ _ (fun hc => hik hc.symm)] at hkv
      exact hwf.placed _ hi kv hkv
  · show m1.elements + 1 = _
    have := sum_map_set List.length m1.buckets (map_hash m1 k)
      ((k, v) :: m1.buckets.getD (map_hash m1 k) []) hhash
    have hent : map_entries { m1 with
        buckets := m1.buckets.set (map_hash m1 k)
          ((k, v) :: m1.buckets.getD (map_hash m1 k) [])
        elements := m1.elements + 1 } =
        ((m1.buckets.set (map_hash m1 k)
          ((k, v) :: m1.buckets.getD (map_hash m1 k) [])).map List.length).sum := by
      rw [map_entries, List.length_flatten]
    rw [hent]
    have hold : m1.elements = (m1.buckets.map List.length).sum := by
      rw [hwf.count, map_entries, List.length_flatten]
    simp only [List.length_cons] at this
    omega

theorem map_prepend_count {m1 : CMap} (hwf : MapWF m1) (k v k' : Nat) :
    map_count { m1 with
      buckets := m1.buckets.set (map_hash m1 k)
        ((k, v) :: m1.buckets.getD (map_hash m1 k) [])
      elements := m1.elements + 1 } k' =
    map_count m1 k' + (if k' = k then 1 else 0) := by
  have hhash : map_hash m1 k < m1.buckets.length := by
    rw [hwf.len]; exact Nat.mod_lt _ hwf.size_pos
  have hset := sum_map_set (List.countP (fun kv => kv.1 == k')) m1.buckets (map_hash m1 k)
    ((k, v) :: m1.buckets.getD (map_hash m1 k) []) hhash
  rw [List.countP_cons] at hset
  have hleft : map_count { m1 with
      buckets := m1.buckets.set (map_hash m1 k)
        ((k, v) :: m1.buckets.getD (map_hash m1 k) [])
      elements := m1.elements + 1 } k' =
      ((m1.buckets.set (map_hash m1 k)
        ((k, v) :: m1.buckets.getD (map_hash m1 k) [])).map
          (List.countP (fun kv => kv.1 == k'))).sum := by
    rw [map_count, List.countP_flatten]
  have hright : map_count m1 k' =
      (m1.buckets.map (List.countP (fun kv => kv.1 == k'))).sum := by
    rw [map_count, List.countP_flatten]
  rw [hleft, hright]
  have hite : (if (k, v).1 == k' then 1 else 0) = (if k' = k then 1 else 0) := by
    by_cases hk : k' = k
    · simp [hk]
    · simp only
      rw [if_neg (by simpa using fun hc => hk hc.symm), if_neg hk]
  omega

theorem map_insert_wf {m : CMap} (hwf : MapWF m) (k v : Nat) :
    MapWF (map_insert m k v) := by
  rw [map_insert]
  by_cases hlf : m.lfactor_thrhold < load_factor m
  · simp only [if_pos hlf]
    exact map_prepend_wf (map_rehash_wf hwf (by have := hwf.size_pos; omega)) k v
  · simp only [if_neg hlf]
    exact map_prepend_wf hwf k v

theorem map_insert_count {m : CMap} (hwf : MapWF m) (k v k' : Nat) :
    map_count (map_insert m k v) k' = map_count m k' + (if k' = k then 1 else 0) := by
  rw [map_insert]
  by_cases hlf : m.lfactor_thrhold < load_factor m
  · simp only [if_pos hlf]
    rw [map_prepend_count (map_rehash_wf hwf (by have := hwf.size_pos; omega)) k v k',
      map_rehash_count m (by have := hwf.size_pos; omega) k']
  · simp only [if_neg hlf]
    exact map_prepend_count hwf k v k'

theorem map_insert_elements {m : CMap} (k v : Nat) :
    (map_insert m k v).elements = m.elements + 1 := by
  by_cases hlf : m.lfactor_thrhold < load_factor m
  · rw [map_insert, if_pos hlf]; rfl
  · rw [map_insert, if_neg hlf]

theorem bucket_remove_none_iff {l : List (Nat × Nat)} {key : Nat} :
    bucket_remove l key = none ↔ ∀ kv ∈ l, kv.1 ≠ key := by
  induction l with
  | nil => simp [bucket_remove]
  | cons kv0 rest ih =>
    rw [bucket_remove]
    by_cases h0 : kv0.1 = key
    · rw [if_pos h0]
      simp [h0]
    · rw [if_neg h0]
      simp [Option.map_eq_none', ih, h0]

theorem bucket_remove_some_spec {key : Nat} :
    ∀ {l l' : List (Nat × Nat)} {v : Nat}, bucket_remove l key = some (v, l') →
      l.length = l'.length + 1 ∧
      (∀ k', l.countP (fun kv => kv.1 == k') =
        l'.countP (fun kv => kv.1 == k') + (if key = k' then 1 else 0)) ∧
      (∀ kv ∈ l', kv ∈ l) := by
  intro l
  induction l with
  | nil => intro l' v h; exact absurd h (by simp [bucket_remove])
  | cons kv0 rest ih =>
    intro l' v h
    rw [bucket_remove] at h
    by_cases h0 : kv0.1 = key
    · rw [if_pos h0] at h
      obtain ⟨hv, hl⟩ := Prod.mk.injEq .. |>.mp (Option.some.inj h)
      subst hl
      refine ⟨by simp, ?_, fun kv hkv => List.mem_cons_of_mem _ hkv⟩
      intro k'
      rw [List.countP_cons]
      congr 1
      by_cases hk : key = k'
      · simp [← h0, hk]
      · rw [if_neg (by simpa [h0] using hk), if_neg hk]
    · rw [if_neg h0] at h
      rcases Option.map_eq_some'.mp h with ⟨⟨v2, l2⟩, hrec, heq⟩
      dsimp only at heq
      obtain ⟨hv, hl⟩ := Prod.mk.injEq .. |>.mp heq
      subst hl
      obtain ⟨ihl, ihc, ihm⟩ := ih hrec
      refine ⟨by simp [ihl], ?_, ?_⟩
      · intro k'
        rw [List.countP_cons, List.countP_cons, ihc k']
        omega
      · intro kv hkv
        rcases List.mem_cons.mp hkv with hkv | hkv
        · exact hkv ▸ List.mem_cons_self _ _
        · exact List.mem_cons_of_mem _ (ihm kv hkv)

theorem map_remove_safe_spec {m : CMap} (hwf : MapWF m) {k v : Nat} {m' : CMap}
    (h : map_remove_safe m k = some (v, m')) :
    MapWF m' ∧ m'.elements + 1 = m.elements ∧
    (∀ k', map_count m' k' + (if k = k' then 1 else 0) = map_count m k') := by
  have hhash : map_hash m k < m.buckets.length := by
    rw [hwf.len]; exact Nat.mod_lt _ hwf.size_pos
  rw [map_remove_safe] at h
  rcases hbr : bucket_remove (m.buckets.getD (map_hash m k) []) k with _ | ⟨v0, l'⟩
  · rw [hbr] at h; exact absurd h (by simp)
  · rw [hbr] at h
    obtain ⟨hv, hm⟩ := Prod.mk.injEq .. |>.mp (Option.some.inj h)
    subst hm
    obtain ⟨hlen, hcnt, hmem⟩ := bucket_remove_some_spec hbr
    have hlensum := sum_map_set List.length m.buckets (map_hash m k) l' hhash
    have hentries : m.elements = (m.buckets.map List.length).sum := by
      rw [hwf.count, map_entries, List.length_flatten]
    refine ⟨?_, ?_, ?_⟩
    · constructor
      · exact hwf.size_pos
      · simpa using hwf.len
      · intro i hi kv hkv
        simp only [List.length_set] at hi
        by_cases hik : i = map_hash m k
        · subst hik
          rw [getD_set_self _ _ _ _ hhash] at hkv
          exact hwf.placed _ hi kv (hmem kv hkv)
        · rw [getD_set_ne _ _ _ (fun hc => hik hc.symm)] at hkv
          exact hwf.placed _ hi kv hkv
      · show m.elements - 1 = _
        have hent' : map_entries { m with
            buckets := m.buckets.set (map_hash m k) l'
            elements := m.elements - 1 } =
            ((m.buckets.set (map_hash m k) l').map List.length).sum := by
          rw [map_entries, List.length_flatten]
        rw [hent']
        omega
    · show m.elements - 1 + 1 = m.elements
      omega
    · intro k'
      show map_count { m with
          buckets := m.buckets.set (map_hash m k) l'
          elements := m.elements - 1 } k' + _ = _
      have hsum := sum_map_set (List.countP (fun kv => kv.1 == k')) m.buckets
        (map_hash m k) l' hhash
      have hL : map_count { m with
          buckets := m.buckets.set (map_hash m k) l'
          elements := m.elements - 1 } k' =
          ((m.buckets.set (map_hash m k) l').map
            (List.countP (fun kv => kv.1 == k'))).sum := by
        rw [map_count, List.countP_flatten]
      have hR : map_count m k' =
          (m.buckets.map (List.countP (fun kv => kv.1 == k'))).sum := by
        rw [map_count, List.countP_flatten]
      rw [hL, hR]
      have := hcnt k'
      omega

theorem map_remove_safe_isSome (m : CMap) (k : Nat) :
    (map_remove_safe m k).isSome = map_has m k := by
  rw [map_remove_safe, map_has]
  rcases hbr : bucket_remove (m.buckets.getD (map_hash m k) []) k with _ | ⟨v0, l'⟩
  · have hall := bucket_remove_none_iff.mp hbr
    simp only [Option.isSome_none]
    exact (List.any_eq_false.mpr (by
      intro kv hkv
      simpa using hall kv hkv)).symm
  · simp only [Option.isSome_some]
    by_contra hc
    have hfalse : (m.buckets.getD (map_hash m k) []).any (fun kv => kv.1 == k) = false := by
      cases hx : (m.buckets.getD (map_hash m k) []).any (fun kv => kv.1 == k)
      · rfl
      · exact absurd hx.symm hc
    have : bucket_remove (m.buckets.getD (map_hash m k) []) k = none :=
      bucket_remove_none_iff.mpr (by
        intro kv hkv
        have := List.any_eq_false.mp hfalse kv hkv
        simpa using this)
    rw [this] at hbr
    exact Option.noConfusion hbr

theorem map_has_iff_count {m : CMap} (hwf : MapWF m) (k : Nat) :
    map_has m k = true ↔ 0 < map_count m k := by
  have hhash : map_hash m k < m.buckets.length := by
    rw [hwf.len]; exact Nat.mod_lt _ hwf.size_pos
  rw [map_has, map_count]
  constructor
  · intro h
    rcases List.any_eq_true.mp h with ⟨kv, hkv, hp⟩
    refine List.countP_pos_iff.mpr ⟨kv, ?_, hp⟩
    refine List.mem_flatten.mpr ⟨m.buckets.getD (map_hash m k) [], ?_, hkv⟩
    rw [List.getD_eq_getElem _ _ hhash]
    exact List.getElem_mem _
  · intro h
    rcases List.countP_pos_iff.mp h with ⟨kv, hkv, hp⟩
    rcases List.mem_flatten.mp hkv with ⟨b, hb, hkvb⟩
    rcases List.mem_iff_getElem.mp hb with ⟨i, hi, rfl⟩
    have hplaced := hwf.placed i hi kv (by rw [List.getD_eq_getElem _ _ hi]; exact hkvb)
    have hk : kv.1 = k := by simpa using hp
    refine List.any_eq_true.mpr ⟨kv, ?_, hp⟩
    have hieq : map_hash m k = i := by rw [map_hash, ← hk, hplaced]
    rw [hieq, List.getD_eq_getElem _ _ hi]
    exact hkvb

theorem map_get_safe_isSome (m : CMap) (k : Nat) :
    (map_get_safe m k).isSome = map_has m k := by
  rw [map_get_safe, map_has]
  cases hf : (m.buckets.getD (map_hash m k) []).find? (fun kv => kv.1 == k) with
  | none =>
    simp only [Option.map_none', Option.isSome_none]
    have := List.find?_eq_none.mp hf
    exact (List.any_eq_false.mpr (by intro x hxm; simpa using this x hxm)).symm
  | some kv =>
    simp only [Option.map_some', Option.isSome_some]
    have hkv := List.find?_some hf
    have hmem := List.mem_of_find?_eq_some hf
    exact (List.any_eq_true.mpr ⟨kv, hmem, hkv⟩).symm

/-! ## The HNSW graph of `graph.c` and `index_hnsw.c`

The embedding is generic over the payload type `V` of a vector and the
distance type `D`; the distance kernels of `method.c` enter only through
a `CmpMethod` record, as in the C core.  Node pointers are arena indices
into `IndexHNSW.nodes`; the `next`-pointer chain headed at `head` is the
index list `chain` (head first).  The level of a new node is drawn by
`assign_level` from `rand()`; it enters the model as an explicit input. -/

/-- `CmpMethod` of `method.h`. -/
structure CmpMethod (V D : Type) where
  worst_match_value : D
  is_better_match : D → D → Bool
  compare_vectors : V → V → D

/-- `Vector` of `vector.h`: non-zero id, tag bitmap, aligned payload. -/
structure CVector (V : Type) where
  id : Nat
  tag : Nat
  vec : V

/-- `GraphNode` of `graph.h`, arena-style.  `neighbors l` is the filled
prefix of the level-`l` neighbor array (its length is `ODEGREE`), and
`idegree l` the in-degree counter. -/
structure GraphNode (V : Type) where
  vector : CVector V
  level : Nat
  alive : Bool
  idegree : Nat → Nat
  neighbors : Nat → List Nat

/-- `alloc_graph_node` of `graph.c` for a non-null vector: zeroed
degrees and neighbor arrays, `alive = 1`; the level sampled by
`assign_level` is passed in. -/
def alloc_graph_node {V : Type} (id tag : Nat) (vec : V) (level : Nat) : GraphNode V :=
  { vector := ⟨id, tag, vec⟩
    level := level
    alive := true
    idegree := fun _ => 0
    neighbors := fun _ => [] }

/-- `IndexHNSW` of `graph.h`. -/
structure IndexHNSW (V D : Type) where
  ef_search : Nat
  ef_construct : Nat
  M0 : Nat
  top_level : Nat
  elements : Nat
  cmp : CmpMethod V D
  dims : Nat
  dims_aligned : Nat
  nodes : List (GraphNode V)
  gentry : Option Nat
  chain : List Nat

/-- `SearchContext` of `graph.c`. -/
structure SearchContext (V D : Type) where
  query : V
  cmp : CmpMethod V D
  filter_alive : Bool

/-- Heap elements used by the graph code: a node pointer (arena index)
with its distance, i.e. `HeapNode` with `HEAP_NODE_PTR` payload. -/
structure HNode (D : Type) where
  value : Nat
  distance : D
deriving DecidableEq

/-- The comparator the graph code hands to `init_heap`: compare
distances with `is_better_match`. -/
def hnodeCmp {V D : Type} (cmp : CmpMethod V D) : HNode D → HNode D → Bool :=
  fun x y => cmp.is_better_match x.distance y.distance

/-- A fresh unbounded `HEAP_BETTER_TOP` heap as the graph code
allocates. -/
def newBestHeap {V D : Type} (cmp : CmpMethod V D) : CHeap (HNode D) :=
  init_heap true (hnodeCmp cmp) none ⟨0, cmp.worst_match_value⟩

/-- A fresh bounded `HEAP_WORST_TOP` heap of capacity `c`. -/
def newWorstHeap {V D : Type} (cmp : CmpMethod V D) (c : Nat) : CHeap (HNode D) :=
  init_heap false (hnodeCmp cmp) (some c) ⟨0, cmp.worst_match_value⟩

/-- Selection-strategy flags of `graph.c`. -/
def SELECT_NEIGHBORS_SIMPLE : Nat := 0x00

def SELECT_NEIGHBORS_HEURISTIC : Nat := 0x01

/-- `1 << 2`. -/
def HEURISTIC_EXTEND_CANDIDATES : Nat := 4

/-- `1 << 3`. -/
def HEURISTIC_KEEP_PRUNED : Nat := 8

/-- Pointer update through the arena: replace node `i`. -/
def setNode {V : Type} (nodes : List (GraphNode V)) (i : Nat) (n : GraphNode V) :
    List (GraphNode V) :=
  nodes.set i n

/-- `NEIGHBOR_AT(n, level, ODEGREE(n, level)) = e; ODEGREE(n, level)++`. -/
def arenaAddNeighbor {V : Type} (nodes : List (GraphNode V)) (nId level eId : Nat) :
    List (GraphNode V) :=
  match nodes[nId]? with
  | none => nodes
  | some n => setNode nodes nId { n with
      neighbors := fun l => if l = level then n.neighbors level ++ [eId] else n.neighbors l }

/-- `IDEGREE(n, level)++`. -/
def arenaIncIdeg {V : Type} (nodes : List (GraphNode V)) (nId level : Nat) :
    List (GraphNode V) :=
  match nodes[nId]? with
  | none => nodes
  | some n => setNode nodes nId { n with
      idegree := fun l => if l = level then n.idegree level + 1 else n.idegree l }

/-- `IDEGREE(n, level)--`. -/
def arenaDecIdeg {V : Type} (nodes : List (GraphNode V)) (nId level : Nat) :
    List (GraphNode V) :=
  match nodes[nId]? with
  | none => nodes
  | some n => setNode nodes nId { n with
      idegree := fun l => if l = level then n.idegree level - 1 else n.idegree l }

/-- Clear the out-list of `n` at `level` (the first loop of
`backlink_connect_with_shrink` nulls every slot and zeroes `ODEGREE`). -/
def arenaClearNeighbors {V : Type} (nodes : List (GraphNode V)) (nId level : Nat) :
    List (GraphNode V) :=
  match nodes[nId]? with
  | none => nodes
  | some n => setNode nodes nId { n with
      neighbors := fun l => if l = level then [] else n.neighbors l }

/-- `set_candidate_queue` of `graph.c`: empty `C` into `W`; with
`HEURISTIC_EXTEND_CANDIDATES` also admit each popped candidate's
unvisited neighbors, deduplicated through the map `inW`.  `C` only
shrinks, so fuel `heap_size C` suffices. -/
def set_candidate_queue {V D : Type} (sc : SearchContext V D) (nodes : List (GraphNode V))
    (heuristic level : Nat) :
    Nat → CHeap (HNode D) → CHeap (HNode D) → List Nat →
      CHeap (HNode D) × CHeap (HNode D) × List Nat
  | 0, C, W, inW => (C, W, inW)
  | fuel + 1, C, W, inW =>
    match heap_pop C with
    | none => (C, W, inW)
    | some (e, C') =>
      let W1 := (heap_insert W e).getD W
      if heuristic &&& HEURISTIC_EXTEND_CANDIDATES ≠ 0 then
        match nodes[e.value]? with
        | none => set_candidate_queue sc nodes heuristic level fuel C' W1 inW
        | some c =>
          let st := (c.neighbors level).foldl
            (fun (acc : CHeap (HNode D) × List Nat) nid =>
              match nodes[nid]? with
              | none => acc
              | some n =>
                if acc.2.contains n.vector.id then acc
                else
                  let dist := sc.cmp.compare_vectors sc.query n.vector.vec
                  ((heap_insert acc.1 ⟨nid, dist⟩).getD acc.1, n.vector.id :: acc.2))
            (W1, c.vector.id :: inW)
          set_candidate_queue sc nodes heuristic level fuel C' st.1 st.2
      else set_candidate_queue sc nodes heuristic level fuel C' W1 inW

/-- The acceptance test of `select_neighbors_heuristic`: `e` is accepted
iff it is not closer to any already chosen neighbor than to the
query. -/
def snh_accept {V D : Type} (sc : SearchContext V D) (nodes : List (GraphNode V))
    (e : HNode D) (R : List (HNode D)) : Bool :=
  R.all (fun chosen =>
    match nodes[e.value]?, nodes[chosen.value]? with
    | some element, some ch =>
      !(sc.cmp.is_better_match
        (sc.cmp.compare_vectors element.vector.vec ch.vector.vec) e.distance)
    | _, _ => true)

/-- The main acceptance loop of `select_neighbors_heuristic`
(`while heap_size(W) > 0 && r < M`). -/
def snh_loop {V D : Type} (sc : SearchContext V D) (nodes : List (GraphNode V))
    (M : Nat) (keepPruned : Bool) :
    Nat → CHeap (HNode D) → CHeap (HNode D) → List (HNode D) →
      List (HNode D) × CHeap (HNode D)
  | 0, _, Wd, R => (R, Wd)
  | fuel + 1, W, Wd, R =>
    if R.length < M then
      match heap_pop W with
      | none => (R, Wd)
      | some (e, W') =>
        if snh_accept sc nodes e R then
          snh_loop sc nodes M keepPruned fuel W' Wd (R ++ [e])
        else if keepPruned then
          snh_loop sc nodes M keepPruned fuel W' ((heap_insert Wd e).getD Wd) R
        else snh_loop sc nodes M keepPruned fuel W' Wd R
    else (R, Wd)

/-- The `KEEP_PRUNED` refill loop (`while |Wd| > 0 and |R| < M`). -/
def snh_fill {D : Type} (M : Nat) :
    Nat → CHeap (HNode D) → List (HNode D) → List (HNode D)
  | 0, _, R => R
  | fuel + 1, Wd, R =>
    if R.length < M then
      match heap_pop Wd with
      | none => R
      | some (e, Wd') => snh_fill M fuel Wd' (R ++ [e])
    else R

/-- `select_neighbors_heuristic` of `graph.c`: build the working queue
`W` from `C`, accept up to `M` diversified neighbors into `R` (pruned
candidates go to `Wd` under `KEEP_PRUNED`, and refill `R` from `Wd`),
then write `R` back into the emptied `C`. -/
def select_neighbors_heuristic {V D : Type} (sc : SearchContext V D)
    (nodes : List (GraphNode V)) (C : CHeap (HNode D)) (M heuristic level : Nat) :
    CHeap (HNode D) :=
  let st := set_candidate_queue sc nodes heuristic level (heap_size C) C
    (newBestHeap sc.cmp) []
  let keep := heuristic &&& HEURISTIC_KEEP_PRUNED ≠ 0
  let rw := snh_loop sc nodes M keep (heap_size st.2.1) st.2.1 (newBestHeap sc.cmp) []
  let R2 := if keep then snh_fill M M rw.2 rw.1 else rw.1
  R2.foldl (fun c e => (heap_insert c e).getD c) st.1

/-- The naive truncation branch of `select_neighbors`
(`c = heap_size(W) - M` pops; a negative `c` in the C code pops
nothing, as does the `Nat` subtraction here). -/
def selectPopExtra {D : Type} : Nat → CHeap (HNode D) → CHeap (HNode D)
  | 0, W => W
  | c + 1, W =>
    match heap_pop W with
    | none => W
    | some (_, W') => selectPopExtra c W'

/-- `select_neighbors` of `graph.c`: the heuristic is delegated to only
when `heuristic == SELECT_NEIGHBORS_HEURISTIC` (an equality test, not a
flag test); otherwise the worst elements are popped until at most `M`
remain. -/
def select_neighbors {V D : Type} (sc : SearchContext V D) (nodes : List (GraphNode V))
    (W : CHeap (HNode D)) (M heuristic level : Nat) : CHeap (HNode D) :=
  if heuristic = SELECT_NEIGHBORS_HEURISTIC then
    select_neighbors_heuristic sc nodes W M heuristic level
  else
    selectPopExtra (heap_size W - M) W

/-- The rebuild loop at the end of `backlink_connect_with_shrink`:
pop the pruned heap and re-append each survivor to `n`'s out-list,
bumping both degree counters. -/
def backlinkRebuild {V D : Type} (nId level : Nat) :
    Nat → List (GraphNode V) → CHeap (HNode D) → List (GraphNode V)
  | 0, nodes, _ => nodes
  | fuel + 1, nodes, W =>
    match heap_pop W with
    | none => nodes
    | some (c, W') =>
      backlinkRebuild nId level fuel
        (arenaIncIdeg (arenaAddNeighbor nodes nId level c.value) c.value level) W'

/-- `backlink_connect_with_shrink` of `graph.c`: add the reverse edge
`n → e`; when `n` is saturated at `level`, collect its neighbors (with
distances to `n`) and `e` into a worst-top heap of capacity `M+1`,
prune with `select_neighbors_heuristic` under `KEEP_PRUNED`, and rebuild
the out-list from the result. -/
def backlink_connect_with_shrink {V D : Type} (sc : SearchContext V D)
    (nodes : List (GraphNode V)) (nId eId level M : Nat) : List (GraphNode V) :=
  match nodes[nId]? with
  | none => nodes
  | some n =>
    if (n.neighbors level).length < M then
      arenaIncIdeg (arenaAddNeighbor nodes nId level eId) eId level
    else
      let W1 := (n.neighbors level).foldl
        (fun W cid =>
          match nodes[cid]? with
          | some c =>
            (heap_insert W ⟨cid, sc.cmp.compare_vectors c.vector.vec n.vector.vec⟩).getD W
          | none => W)
        (newWorstHeap sc.cmp (M + 1))
      let nodes1 := (n.neighbors level).foldl
        (fun ns cid => arenaDecIdeg ns cid level) nodes
      let nodes2 := arenaClearNeighbors nodes1 nId level
      let d := match nodes[eId]? with
        | some e => sc.cmp.compare_vectors e.vector.vec n.vector.vec
        | none => sc.cmp.worst_match_value
      let W2 := (heap_insert W1 ⟨eId, d⟩).getD W1
      let W3 := select_neighbors_heuristic sc nodes2 W2 M HEURISTIC_KEEP_PRUNED level
      backlinkRebuild nId level (heap_size W3) nodes2 W3

/-- `connect_to` of `graph.c`: directed edge `e → n` plus the pruned
back-link `n → e`. -/
def connect_to {V D : Type} (sc : SearchContext V D) (nodes : List (GraphNode V))
    (eId nId level M : Nat) : List (GraphNode V) :=
  let nodes1 := arenaIncIdeg (arenaAddNeighbor nodes eId level nId) nId level
  backlink_connect_with_shrink sc nodes1 nId eId level M

/-- The seeding phase of `search_layer`: for each non-null entry point
with a vector, record it as visited, push it into `C`, and (unless the
alive filter rejects it) into `W`. -/
def search_layer_seed {V D : Type} (sc : SearchContext V D) (nodes : List (GraphNode V))
    (eps : List (Option Nat)) (C W : CHeap (HNode D)) :
    CHeap (HNode D) × CHeap (HNode D) × List Nat :=
  eps.foldl
    (fun (acc : CHeap (HNode D) × CHeap (HNode D) × List Nat) ep =>
      match ep with
      | none => acc
      | some nid =>
        match nodes[nid]? with
        | none => acc
        | some cur =>
          let d := sc.cmp.compare_vectors cur.vector.vec sc.query
          let n : HNode D := ⟨nid, d⟩
          let C1 := (heap_insert acc.1 n).getD acc.1
          let W1 := if !sc.filter_alive || cur.alive
            then (heap_insert acc.2.1 n).getD acc.2.1 else acc.2.1
          (C1, W1, cur.vector.id :: acc.2.2))
    (C, W, [])

/-- The best-first loop of `search_layer`.  Every element ever stored
into `C` is a seed or a freshly visited node, so a fuel of
`eps.length + nodes.length + 1` dominates the number of pops. -/
def search_layer_loop {V D : Type} (sc : SearchContext V D) (nodes : List (GraphNode V))
    (level : Nat) :
    Nat → CHeap (HNode D) → CHeap (HNode D) → List Nat → CHeap (HNode D)
  | 0, _, W, _ => W
  | fuel + 1, C, W, visited =>
    match heap_pop C with
    | none => W
    | some (c, C1) =>
      let exit :=
        if 0 < heap_size W then
          match heap_peek W with
          | some w => heap_full W && sc.cmp.is_better_match w.distance c.distance
          | none => false
        else false
      if exit then W
      else
        match nodes[c.value]? with
        | none => search_layer_loop sc nodes level fuel C1 W visited
        | some current =>
          let st := (current.neighbors level).foldl
            (fun (acc : CHeap (HNode D) × CHeap (HNode D) × List Nat) nbid =>
              match nodes[nbid]? with
              | none => acc
              | some neighbor =>
                if acc.2.2.contains neighbor.vector.id then acc
                else
                  let d := sc.cmp.compare_vectors sc.query neighbor.vector.vec
                  let n : HNode D := ⟨nbid, d⟩
                  let wtop := match heap_peek acc.2.1 with
                    | some w => w.distance
                    | none => d
                  let C2 := if !heap_full acc.2.1 || sc.cmp.is_better_match d wtop
                    then (heap_insert acc.1 n).getD acc.1 else acc.1
                  let W2 :=
                    if !sc.filter_alive || neighbor.alive then
                      if heap_full acc.2.1 then
                        if sc.cmp.is_better_match n.distance wtop
                        then (heap_replace acc.2.1 n).getD acc.2.1
                        else acc.2.1
                      else (heap_insert acc.2.1 n).getD acc.2.1
                    else acc.2.1
                  (C2, W2, neighbor.vector.id :: acc.2.2))
            (C1, W, visited)
          search_layer_loop sc nodes level fuel st.1 st.2.1 st.2.2

/-- `search_layer` of `graph.c`: best-first traversal at one level with
candidate heap `C` (unbounded, better-top), result heap `W` (bounded by
`ef`, worst-top) and a visited set. -/
def search_layer {V D : Type} (sc : SearchContext V D) (nodes : List (GraphNode V))
    (eps : List (Option Nat)) (ef level : Nat) : CHeap (HNode D) :=
  let seeded := search_layer_seed sc nodes eps (newBestHeap sc.cmp)
    (newWorstHeap sc.cmp ef)
  search_layer_loop sc nodes level (eps.length + nodes.length + 1)
    seeded.1 seeded.2.1 seeded.2.2

/-- The greedy descent shared by `graph_insert` and `graph_knn_search`
(`search_layer` with `ef = 1`, keeping the single best as the next entry
point).  `count` is the number of levels to descend, `i` the current
level. -/
def greedy_descend {V D : Type} (sc : SearchContext V D) (nodes : List (GraphNode V)) :
    Nat → Nat → Option Nat → Option Nat
  | 0, _, ep => ep
  | count + 1, i, ep =>
    let W := search_layer sc nodes [ep] 1 i
    let ep' := match heap_pop W with
      | some (w, _) => some w.value
      | none => ep
    greedy_descend sc nodes count (i - 1) ep'

/-- The connection phase of one `graph_insert` layer iteration: pop the
selected neighbors, `connect_to` each, and collect them as the entry set
of the next layer. -/
def gi_connect {V D : Type} (sc : SearchContext V D) (nid i m : Nat) :
    Nat → List (GraphNode V) → CHeap (HNode D) → List (Option Nat) →
      List (GraphNode V) × List (Option Nat)
  | 0, nodes, _, acc => (nodes, acc)
  | fuel + 1, nodes, W, acc =>
    match heap_pop W with
    | none => (nodes, acc)
    | some (w, W') =>
      gi_connect sc nid i m fuel (connect_to sc nodes nid w.value i m) W'
        (acc ++ [some w.value])

/-- The `for (; i >= 0; i--)` layer loop of `graph_insert`: wide search
with `ef_construct`, neighbor selection with
`SELECT_NEIGHBORS_HEURISTIC | HEURISTIC_KEEP_PRUNED |
HEURISTIC_EXTEND_CANDIDATES` capped at `M0` (level 0) or `M0/2`, then
bidirectional connection; the selected neighbors seed the next layer.
`count` is the number of remaining iterations (`i + 1`). -/
def gi_layers {V D : Type} (sc : SearchContext V D) (M0 ef_construct nid : Nat) :
    Nat → Nat → List (Option Nat) → List (GraphNode V) → List (GraphNode V)
  | 0, _, _, nodes => nodes
  | count + 1, i, entries, nodes =>
    let W := search_layer sc nodes entries ef_construct i
    let m := if i = 0 then M0 else M0 / 2
    let W2 := select_neighbors sc nodes W m
      (SELECT_NEIGHBORS_HEURISTIC ||| HEURISTIC_KEEP_PRUNED ||| HEURISTIC_EXTEND_CANDIDATES) i
    let st := gi_connect sc nid i m (heap_size W2) nodes W2 []
    gi_layers sc M0 ef_construct nid count (i - 1) st.2 st.1

/-- `graph_insert` of `graph.c`.  The node is appended to the arena (its
arena index plays the role of its address).  `entryAllocOk` models the
`calloc` of the `entry` array: when it fails the function returns
`SYSTEM_ERROR` — after having already linked the node at the head of the
forward chain. -/
def graph_insert {V D : Type} (idx : IndexHNSW V D) (node : GraphNode V)
    (entryAllocOk : Bool) : ErrorCode × IndexHNSW V D :=
  let nid := idx.nodes.length
  if idx.elements = 0 then
    (SUCCESS, { idx with
      elements := idx.elements + 1
      nodes := idx.nodes ++ [node]
      gentry := some nid
      chain := [nid]
      top_level := node.level })
  else
    -- insert in the flat list: node->next = idx->head; idx->head = node
    let idx1 := { idx with nodes := idx.nodes ++ [node], chain := nid :: idx.chain }
    let sc : SearchContext V D := ⟨node.vector.vec, idx.cmp, false⟩
    if !entryAllocOk then (SYSTEM_ERROR, idx1)
    else
      let ep := greedy_descend sc idx1.nodes (idx1.top_level - node.level)
        idx1.top_level idx1.gentry
      let startLvl := min idx1.top_level node.level
      let nodes' := gi_layers sc idx.M0 idx.ef_construct nid (startLvl + 1) startLvl
        [ep] idx1.nodes
      let idx2 := { idx1 with nodes := nodes', elements := idx1.elements + 1 }
      if node.level > idx2.top_level then
        (SUCCESS, { idx2 with gentry := some nid, top_level := node.level })
      else (SUCCESS, idx2)

/-- The `ef` used by `graph_knn_search` at level 0:
`k > ef_search ? k * 2 : ef_search`. -/
def knnBottomEf (ef_search k : Nat) : Nat :=
  if ef_search < k then k * 2 else ef_search

/-- The context switch before the level-0 search of `graph_knn_search`:
`sc.filter_alive = 1`. -/
def bottomContext {V D : Type} (sc : SearchContext V D) : SearchContext V D :=
  { sc with filter_alive := true }

/-- The final loop of `graph_knn_search`: pop everything from `W` into
the caller's heap `R`. -/
def knn_fill {D : Type} : Nat → CHeap (HNode D) → CHeap (HNode D) → CHeap (HNode D)
  | 0, _, R => R
  | fuel + 1, W, R =>
    match heap_pop W with
    | none => R
    | some (w, W') => knn_fill fuel W' ((heap_insert R w).getD R)

/-- `graph_knn_search` of `graph.c`: greedy descent with the alive
filter off, then a level-0 `search_layer` with the alive filter on and
breadth `knnBottomEf`, naive truncation to `k`, and emission into `R`. -/
def graph_knn_search {V D : Type} (idx : IndexHNSW V D) (v : V) (R : CHeap (HNode D))
    (k : Nat) : ErrorCode × CHeap (HNode D) :=
  let sc : SearchContext V D := ⟨v, idx.cmp, false⟩
  let ep := greedy_descend sc idx.nodes idx.top_level idx.top_level idx.gentry
  let ef := knnBottomEf idx.ef_search k
  let W := search_layer (bottomContext sc) idx.nodes [ep] ef 0
  let W2 := select_neighbors (bottomContext sc) idx.nodes W k 0 0
  (SUCCESS, knn_fill (heap_size W2) W2 R)

/-- `MatchResult` of `victor.h`. -/
structure MatchResult (D : Type) where
  id : Nat
  distance : D
deriving DecidableEq

/-- `NULL_ID` of `victor.h`. -/
def NULL_ID : Nat := 0

/-- The sentinel a search writes into unused result slots:
`id = NULL_ID`, `distance = worst_match_value`. -/
def sentinelResult {V D : Type} (cmp : CmpMethod V D) : MatchResult D :=
  ⟨NULL_ID, cmp.worst_match_value⟩

/-- The initialization loop of `graph_linear_search`: `result[i]` gets
the sentinel for every `i < n`. -/
def writeSentinels {V D : Type} (cmp : CmpMethod V D) (result : List (MatchResult D))
    (n : Nat) : List (MatchResult D) :=
  (List.range n).foldl (fun res i => res.set i (sentinelResult cmp)) result

/-- The emission loop of `graph_linear_search`: `k = heap_size`, then
`while (k > 0) { pop; result[--k] = … }` (worst-top heap, so the best
match lands at index 0). -/
def linEmit {V D : Type} (nodes : List (GraphNode V)) :
    Nat → CHeap (HNode D) → List (MatchResult D) → List (MatchResult D)
  | 0, _, res => res
  | k + 1, hp, res =>
    match heap_pop hp with
    | none => res
    | some (nd, hp') =>
      let id := match nodes[nd.value]? with
        | some g => g.vector.id
        | none => NULL_ID
      linEmit nodes k hp' (res.set k ⟨id, nd.distance⟩)

/-- The chain walk of `graph_linear_search` (`graph.c`): a worst-top
heap of capacity `n` fed with every chain node passing the tag test
`!tag || (tag & node->tag)`.  No `alive` test appears in the loop. -/
def linScanHeap {V D : Type} (idx : IndexHNSW V D) (tag : Nat) (v : V) (n : Nat) :
    CHeap (HNode D) :=
  idx.chain.foldl
    (fun hp cid =>
      match idx.nodes[cid]? with
      | none => hp
      | some current =>
        if tag = 0 || tag &&& current.vector.tag ≠ 0 then
          heap_insert_or_replace_if_better hp
            ⟨cid, idx.cmp.compare_vectors current.vector.vec v⟩
        else hp)
    (newWorstHeap idx.cmp n)

/-- `graph_linear_search` of `graph.c`: sentinel initialization, the
chain walk of `linScanHeap`, then emission; an empty chain returns
`SUCCESS` immediately, before the sentinel initialization. -/
def graph_linear_search {V D : Type} (idx : IndexHNSW V D) (tag : Nat) (v : V)
    (result : List (MatchResult D)) (n : Nat) : ErrorCode × List (MatchResult D) :=
  if idx.chain = [] then (SUCCESS, result)
  else
    let result1 := writeSentinels idx.cmp result n
    let hp := linScanHeap idx tag v n
    (SUCCESS, linEmit idx.nodes (heap_size hp) hp result1)

/-! ## The HNSW index operations of `index_hnsw.c` -/

/-- The result-emission loop of `hnsw_search`
(`for (i = 0; i < n && heap_size(&R) > 0; i++)`): only the found
matches are written; remaining slots are left untouched. -/
def hnswEmit {V D : Type} (nodes : List (GraphNode V)) (n : Nat) :
    Nat → CHeap (HNode D) → List (MatchResult D) → Nat → List (MatchResult D)
  | 0, _, res, _ => res
  | fuel + 1, R, res, i =>
    if i < n then
      match heap_pop R with
      | none => res
      | some (r, R') =>
        let id := match nodes[r.value]? with
          | some g => g.vector.id
          | none => NULL_ID
        hnswEmit nodes n fuel R' (res.set i ⟨id, r.distance⟩) (i + 1)
    else res

/-- `hnsw_search` of `index_hnsw.c`: dimension check, then the graph
k-NN search when `tag == 0`, else the linear tag-filtered scan. -/
def hnsw_search {V D : Type} (idx : IndexHNSW V D) (tag : Nat) (v : V) (dims : Nat)
    (result : List (MatchResult D)) (n : Nat) : ErrorCode × List (MatchResult D) :=
  if dims ≠ idx.dims then (INVALID_DIMENSIONS, result)
  else if tag = 0 then
    let R := init_heap true (hnodeCmp idx.cmp) (some n) ⟨0, idx.cmp.worst_match_value⟩
    let rr := graph_knn_search idx v R n
    if rr.1 = SUCCESS then
      (rr.1, hnswEmit idx.nodes n (heap_size rr.2) rr.2 result 0)
    else (rr.1, result)
  else graph_linear_search idx tag v result n

/-- `hnsw_insert` of `index_hnsw.c`: dimension check, node allocation
(level sampled by `assign_level`, passed in), `graph_insert`; on
`graph_insert` failure the C frees the node and reports `SYSTEM_ERROR`
(the returned index state is whatever `graph_insert` left behind).  On
success the third component is the arena index of the new node (the
`*ref` out-pointer). -/
def hnsw_insert {V D : Type} (idx : IndexHNSW V D) (id tag : Nat) (v : V) (dims : Nat)
    (level : Nat) (entryAllocOk : Bool) :
    ErrorCode × IndexHNSW V D × Option Nat :=
  if dims ≠ idx.dims then (INVALID_DIMENSIONS, idx, none)
  else
    let node := alloc_graph_node id tag v level
    let ri := graph_insert idx node entryAllocOk
    if ri.1 ≠ SUCCESS then (SYSTEM_ERROR, ri.2, none)
    else (SUCCESS, ri.2, some idx.nodes.length)

/-- `hnsw_delete` of `index_hnsw.c`: mark the referenced node dead
(`ptr->alive = 0`).  No edge or chain removal. -/
def hnsw_delete {V D : Type} (idx : IndexHNSW V D) (ref : Nat) :
    ErrorCode × IndexHNSW V D :=
  match idx.nodes[ref]? with
  | none => (SUCCESS, idx)
  | some n => (SUCCESS, { idx with nodes := setNode idx.nodes ref { n with alive := false } })

/-- `__DEFINE_EXPORT_FN` of `store.h`, instantiated as `hnsw_export`:
walk the forward chain from `head` and emit every node's vector record,
with no test of the `alive` flag. -/
def hnsw_export {V D : Type} (idx : IndexHNSW V D) : List (CVector V) :=
  idx.chain.filterMap (fun cid => (idx.nodes[cid]?).map (fun g => g.vector))

/-- `import_mode` of the public interface.  Modelled from the spec:
the numeric values of `IMPORT_OVERWITE`, `IMPORT_IGNORE` and
`IMPORT_IGNORE_VERBOSE` are defined in a header that is not among the
provided sources; the spec (§6) names the three modes
{Overwrite, IgnoreSilent, IgnoreVerbose}. -/
inductive ImportMode where
  | overwrite
  | ignoreVerbose
  | ignore
deriving DecidableEq

/-- `hnsw_import` of `index_hnsw.c`, processing one incoming vector:
on an id collision, `IMPORT_OVERWITE` unregisters and soft-deletes the
existing node and falls through to the insertion; the ignore modes skip.
A fresh node (vectorless allocation, `alive = 1`) receives the incoming
vector, goes through `graph_insert`, and is registered in the map. -/
def hnsw_import_step {V D : Type} (mode : ImportMode) (level : Nat)
    (st : IndexHNSW V D × CMap) (vec : CVector V) : IndexHNSW V D × CMap :=
  let idx := st.1
  let fmap := st.2
  let go : IndexHNSW V D × CMap → IndexHNSW V D × CMap := fun st1 =>
    let node := { alloc_graph_node 0 0 vec.vec level with vector := vec }
    let ri := graph_insert st1.1 node true
    if ri.1 ≠ SUCCESS then st1
    else (ri.2, map_insert st1.2 vec.id st1.1.nodes.length)
  if map_has fmap vec.id then
    match mode with
    | ImportMode.overwrite =>
      let nid := (map_get_p fmap vec.id).getD 0
      let fmap1 := match map_remove_safe fmap vec.id with
        | some (_, m') => m'
        | none => fmap
      let idx1 := (hnsw_delete idx nid).2
      go (idx1, fmap1)
    | ImportMode.ignoreVerbose => st
    | ImportMode.ignore => st
  else go (idx, fmap)

/-- `hnsw_import` of `index_hnsw.c` over the whole vector section; the
sampled level of each new node is drawn from the `levels` oracle. -/
def hnsw_import {V D : Type} (idx : IndexHNSW V D) (fmap : CMap)
    (vecs : List (CVector V)) (levels : List Nat) (mode : ImportMode) :
    IndexHNSW V D × CMap :=
  (vecs.zip (levels ++ List.replicate vecs.length 0)).foldl
    (fun st vl => hnsw_import_step mode vl.2 st vl.1) (idx, fmap)

/-- `HNSWContext` of `victor.h`. -/
structure HNSWContext where
  ef_search : Nat
  ef_construct : Nat
  M0 : Nat

/-- `ALIGN_DIMS` of `vector.h`: next multiple of 4. -/
def ALIGN_DIMS (d : Nat) : Nat := (d + 3) / 4 * 4

/-- `hnsw_init` of `index_hnsw.c`: defaults `ef_search = 110`,
`ef_construct = 220`, `M0 = 32` unless a context overrides them. -/
def hnsw_init {V D : Type} (cmp : CmpMethod V D) (dims : Nat)
    (context : Option HNSWContext) : IndexHNSW V D :=
  { ef_search := match context with | none => 110 | some c => c.ef_search
    ef_construct := match context with | none => 220 | some c => c.ef_construct
    M0 := match context with | none => 32 | some c => c.M0
    top_level := 0
    elements := 0
    cmp := cmp
    dims := dims
    dims_aligned := ALIGN_DIMS dims
    nodes := []
    gentry := none
    chain := [] }

/-! ## The index façade of `index.c` -/

/-- The façade `Index`: backend data plus the id map (`index->map`,
initialized by `alloc_index` with `init_map(&idx->map, 100000, 15)`).
Only the HNSW backend is embedded. -/
structure FIndex (V D : Type) where
  data : IndexHNSW V D
  map : CMap

/-- `alloc_index(HNSW_INDEX, …)` of `index.c`. -/
def alloc_index_hnsw {V D : Type} (cmp : CmpMethod V D) (dims : Nat)
    (context : Option HNSWContext) : FIndex V D :=
  ⟨hnsw_init cmp dims context, init_map 100000 15⟩

/-- `insert` of `index.c`: reject id 0 and duplicates, run the backend
insertion, then register the id in the map. -/
def facade_insert {V D : Type} (idx : FIndex V D) (id : Nat) (v : V) (dims level : Nat) :
    ErrorCode × FIndex V D :=
  if id = NULL_ID then (INVALID_ID, idx)
  else if map_has idx.map id then (DUPLICATED_ENTRY, idx)
  else
    let ri := hnsw_insert idx.data id 0 v dims level true
    if ri.1 = SUCCESS then
      match ri.2.2 with
      | some nid => (SUCCESS, ⟨ri.2.1, map_insert idx.map id nid⟩)
      | none => (SUCCESS, ⟨ri.2.1, idx.map⟩)
    else (ri.1, ⟨ri.2.1, idx.map⟩)

/-- `delete` of `index.c`: look the id up in the map, soft-delete the
node through the backend, remove the id from the map. -/
def facade_delete {V D : Type} (idx : FIndex V D) (id : Nat) :
    ErrorCode × FIndex V D :=
  if id = NULL_ID then (INVALID_ID, idx)
  else
    match map_get_p idx.map id with
    | none => (NOT_FOUND_ID, idx)
    | some nid =>
      let rd := hnsw_delete idx.data nid
      match map_remove_safe idx.map id with
      | none => (SUCCESS, ⟨rd.2, idx.map⟩)
      | some vm => (SUCCESS, ⟨rd.2, vm.2⟩)

/-- `size` of `index.c`: `*sz = index->map.elements`. -/
def facade_size {V D : Type} (idx : FIndex V D) : Nat := idx.map.elements

/-- `contains` of `index.c`: `map_has(&index->map, id)`. -/
def facade_contains {V D : Type} (idx : FIndex V D) (id : Nat) : Bool :=
  map_has idx.map id

/-- `search` of `index.c` through the HNSW backend (`hnsw_search`). -/
def facade_search {V D : Type} (idx : FIndex V D) (tag : Nat) (v : V) (dims : Nat)
    (result : List (MatchResult D)) (n : Nat) : ErrorCode × List (MatchResult D) :=
  hnsw_search idx.data tag v dims result n

/-! ## Persistence dispatch of `index.c` / `store.c` (claim C3) -/

/-- Index-type constants of `victor.h`. -/
def FLAT_INDEX : Nat := 0x00

def NSW_INDEX : Nat := 0x02

def HNSW_INDEX : Nat := 0x03

/-- Magic constants of `store.h`. -/
def FLT_MAGIC : Nat := 0x464C5449

def HNSW_MAGIC : Nat := 0x484E5357

/-- `magic_to_index` of `store.c`; `none` is the `-1` unknown case.
`NSW_MAGIC` is defined in a header not among the sources, so it enters
as the parameter `nsw_magic`. -/
def magic_to_index (nsw_magic magic : Nat) : Option Nat :=
  if magic = FLT_MAGIC then some FLAT_INDEX
  else if magic = nsw_magic then some NSW_INDEX
  else if magic = HNSW_MAGIC then some HNSW_INDEX
  else none

/-- The table filled by `hnsw_functions` (`index_hnsw.c`) has
`idx->dump = NULL`; we record just that slot.  (`flat_functions`
installs a real dump function; it is irrelevant to the claims.) -/
def hnsw_dump_slot {V D : Type} : Option (IndexHNSW V D → List (CVector V)) := none

/-- `dump` of `index.c`: `NOT_IMPLEMENTED` when the backend installed no
dump function; otherwise the io context is built and written
(`store_dump_file`, modelled as succeeding). -/
def facade_dump {V D : Type} (dumpSlot : Option (IndexHNSW V D → List (CVector V)))
    (idx : FIndex V D) : ErrorCode :=
  match dumpSlot with
  | none => NOT_IMPLEMENTED
  | some _ => SUCCESS

/-- The `switch (io.itype)` of `load_index` (`index.c`): only
`FLAT_INDEX` is handled; everything else gets `NOT_IMPLEMENTED` and
`load_index` returns `NULL`.  The flat branch is abstracted by the
parameter `flatLoad`. -/
def load_index_dispatch (flatLoad : ErrorCode) (itype : Nat) : ErrorCode :=
  if itype = FLAT_INDEX then flatLoad else NOT_IMPLEMENTED

/-! ### What the graph mutations never touch

Insertion rewires neighbor lists and degree counters but never a node's
vector, `alive` flag or level.  `SkelEq` captures this: two arenas agree
on length and on every node's (vector, alive, level) skeleton. -/

/-- The immutable part of a node. -/
def skeleton {V : Type} (n : GraphNode V) : CVector V × Bool × Nat :=
  (n.vector, n.alive, n.level)

/-- Arenas agreeing on all node skeletons. -/
def SkelEq {V : Type} (nodes nodes' : List (GraphNode V)) : Prop :=
  nodes'.length = nodes.length ∧
  ∀ i : Nat, (nodes'[i]?).map skeleton = (nodes[i]?).map skeleton

theorem SkelEq.refl {V : Type} (nodes : List (GraphNode V)) : SkelEq nodes nodes :=
  ⟨rfl, fun _ => rfl⟩

theorem SkelEq.trans {V : Type} {a b c : List (GraphNode V)}
    (h1 : SkelEq a b) (h2 : SkelEq b c) : SkelEq a c :=
  ⟨h2.1.trans h1.1, fun i => (h2.2 i).trans (h1.2 i)⟩

theorem setNode_skel {V : Type} {nodes : List (GraphNode V)} {i : Nat}
    {n n' : GraphNode V} (hget : nodes[i]? = some n) (hskel : skeleton n' = skeleton n) :
    SkelEq nodes (setNode nodes i n') := by
  constructor
  · simp [setNode]
  · intro j
    by_cases hij : j = i
    · subst hij
      have hlt : j < nodes.length := (List.getElem?_eq_some_iff.mp hget).1
      rw [setNode, List.getElem?_set_self (by simpa using hlt), hget]
      simp [hskel]
    · rw [setNode, List.getElem?_set_ne (fun hc => hij hc.symm)]

theorem arenaAddNeighbor_skel {V : Type} (nodes : List (GraphNode V)) (nId level eId : Nat) :
    SkelEq nodes (arenaAddNeighbor nodes nId level eId) := by
  rw [arenaAddNeighbor]
  cases hget : nodes[nId]? with
  | none => exact SkelEq.refl nodes
  | some n => exact setNode_skel hget rfl

theorem arenaIncIdeg_skel {V : Type} (nodes : List (GraphNode V)) (nId level : Nat) :
    SkelEq nodes (arenaIncIdeg nodes nId level) := by
  rw [arenaIncIdeg]
  cases hget : nodes[nId]? with
  | none => exact SkelEq.refl nodes
  | some n => exact setNode_skel hget rfl

theorem arenaDecIdeg_skel {V : Type} (nodes : List (GraphNode V)) (nId level : Nat) :
    SkelEq nodes (arenaDecIdeg nodes nId level) := by
  rw [arenaDecIdeg]
  cases hget : nodes[nId]? with
  | none => exact SkelEq.refl nodes
  | some n => exact setNode_skel hget rfl

theorem arenaClearNeighbors_skel {V : Type} (nodes : List (GraphNode V)) (nId level : Nat) :
    SkelEq nodes (arenaClearNeighbors nodes nId level) := by
  rw [arenaClearNeighbors]
  cases hget : nodes[nId]? with
  | none => exact SkelEq.refl nodes
  | some n => exact setNode_skel hget rfl

theorem foldl_skel {V β : Type} (f : List (GraphNode V) → β → List (GraphNode V))
    (hf : ∀ s x, SkelEq s (f s x)) :
    ∀ (l : List β) (s : List (GraphNode V)), SkelEq s (l.foldl f s) := by
  intro l
  induction l with
  | nil => intro s; exact SkelEq.refl s
  | cons x l ih =>
    intro s
    exact (hf s x).trans (ih (f s x))

theorem backlinkRebuild_skel {V D : Type} (nId level : Nat) :
    ∀ (fuel : Nat) (nodes : List (GraphNode V)) (W : CHeap (HNode D)),
      SkelEq nodes (backlinkRebuild nId level fuel nodes W) := by
  intro fuel
  induction fuel with
  | zero => intro nodes W; exact SkelEq.refl nodes
  | succ fuel ih =>
    intro nodes W
    rw [backlinkRebuild]
    cases heap_pop W with
    | none => exact SkelEq.refl nodes
    | some cw =>
      exact ((arenaAddNeighbor_skel nodes nId level cw.1.value).trans
        (arenaIncIdeg_skel _ cw.1.value level)).trans (ih _ cw.2)

theorem backlink_skel {V D : Type} (sc : SearchContext V D) (nodes : List (GraphNode V))
    (nId eId level M : Nat) :
    SkelEq nodes (backlink_connect_with_shrink sc nodes nId eId level M) := by
  rw [backlink_connect_with_shrink]
  split
  · exact SkelEq.refl nodes
  · split
    · exact (arenaAddNeighbor_skel nodes nId level eId).trans
        (arenaIncIdeg_skel _ eId level)
    · exact (foldl_skel _ (fun s x => arenaDecIdeg_skel s x level) _ nodes).trans
        ((arenaClearNeighbors_skel _ nId level).trans
          (backlinkRebuild_skel nId level _ _ _))

theorem connect_to_skel {V D : Type} (sc : SearchContext V D) (nodes : List (GraphNode V))
    (eId nId level M : Nat) :
    SkelEq nodes (connect_to sc nodes eId nId level M) := by
  rw [connect_to]
  exact ((arenaAddNeighbor_skel nodes eId level nId).trans
    (arenaIncIdeg_skel _ nId level)).trans (backlink_skel sc _ nId eId level M)

theorem gi_connect_skel {V D : Type} (sc : SearchContext V D) (nid i m : Nat) :
    ∀ (fuel : Nat) (nodes : List (GraphNode V)) (W : CHeap (HNode D)) (acc : List (Option Nat)),
      SkelEq nodes (gi_connect sc nid i m fuel nodes W acc).1 := by
  intro fuel
  induction fuel with
  | zero => intro nodes W acc; exact SkelEq.refl nodes
  | succ fuel ih =>
    intro nodes W acc
    rw [gi_connect]
    cases heap_pop W with
    | none => exact SkelEq.refl nodes
    | some wW =>
      exact (connect_to_skel sc nodes nid wW.1.value i m).trans (ih _ wW.2 _)

theorem gi_layers_skel {V D : Type} (sc : SearchContext V D) (M0 efc nid : Nat) :
    ∀ (count i : Nat) (entries : List (Option Nat)) (nodes : List (GraphNode V)),
      SkelEq nodes (gi_layers sc M0 efc nid count i entries nodes) := by
  intro count
  induction count with
  | zero => intro i entries nodes; exact SkelEq.refl nodes
  | succ count ih =>
    intro i entries nodes
    rw [gi_layers]
    exact (gi_connect_skel sc nid i _ _ nodes _ []).trans (ih _ _ _)

/-- `graph_insert` with a successful entry allocation: the result is
`SUCCESS`, the arena is the old one plus the new node (up to neighbor
rewiring), the element counter is bumped, and configuration plus chain
behave as in the source. -/
theorem graph_insert_spec {V D : Type} (idx : IndexHNSW V D) (node : GraphNode V) :
    (graph_insert idx node true).1 = SUCCESS ∧
    SkelEq (idx.nodes ++ [node]) (graph_insert idx node true).2.nodes ∧
    (graph_insert idx node true).2.elements = idx.elements + 1 ∧
    (graph_insert idx node true).2.dims = idx.dims ∧
    (graph_insert idx node true).2.cmp = idx.cmp ∧
    (graph_insert idx node true).2.chain =
      (if idx.elements = 0 then [idx.nodes.length] else idx.nodes.length :: idx.chain) := by
  rw [graph_insert]
  by_cases he : idx.elements = 0
  · rw [if_pos he]
    exact ⟨rfl, SkelEq.refl _, rfl, rfl, rfl, by rw [if_pos he]⟩
  · rw [if_neg he]
    simp only [Bool.not_true, Bool.false_eq_true, if_false]
    have hskel := gi_layers_skel (⟨node.vector.vec, idx.cmp, false⟩ : SearchContext V D)
      idx.M0 idx.ef_construct idx.nodes.length
      (min idx.top_level node.level + 1) (min idx.top_level node.level)
      [greedy_descend ⟨node.vector.vec, idx.cmp, false⟩ (idx.nodes ++ [node])
        (idx.top_level - node.level) idx.top_level idx.gentry]
      (idx.nodes ++ [node])
    by_cases htl : node.level > idx.top_level
    · rw [if_pos htl]
      exact ⟨rfl, hskel, rfl, rfl, rfl, by rw [if_neg he]⟩
    · rw [if_neg htl]
      exact ⟨rfl, hskel, rfl, rfl, rfl, by rw [if_neg he]⟩

/-! ## Concrete instances used by witnesses and counterexamples -/

/-- A concrete comparison method on `Nat` payloads: distance is the
absolute difference, a smaller distance is better (`L2NORM`-style). -/
def natCmp : CmpMethod Nat Nat :=
  ⟨1000, fun a b => decide (a < b), fun x y => if x ≤ y then y - x else x - y⟩

/-- A fresh empty HNSW index over `natCmp` (claim C6). -/
def idxC6 : IndexHNSW Nat Nat := hnsw_init natCmp 4 none

/-- An index holding one alive node `id = 1, tag = 0` (claims C8, C5). -/
def idxC8 : IndexHNSW Nat Nat :=
  (hnsw_insert (hnsw_init natCmp 4 none) 1 0 7 4 0 true).2.1

/-- A reachable index whose single node `id = 5, tag = 1` has been
soft-deleted (`alive = 0`) through `hnsw_delete` (claims C2, C10). -/
def idxC2 : IndexHNSW Nat Nat :=
  (hnsw_delete (hnsw_insert (hnsw_init natCmp 4 none) 5 1 7 4 0 true).2.1 0).2

/-- A second node to insert into `idxC8` (claim C5's witness). -/
def nodeC5 : GraphNode Nat := alloc_graph_node 2 0 9 0

/-! ## Claim C5 -/

/-- Claim C5.  The specification says a `SYSTEM_ERROR` insert is fully
rolled back.  The code links the new node at the head of the forward
chain *before* the fallible `calloc` of the entry array, and the failure
path returns without unlinking it: on a non-empty index the failed
insert leaves the chain grown by the new node.  The spec claim is
refuted: the state is observably changed. -/
theorem claim_C5 {V D : Type} (idx : IndexHNSW V D) (node : GraphNode V)
    (he : idx.elements ≠ 0) :
    (graph_insert idx node false).1 = SYSTEM_ERROR ∧
    (graph_insert idx node false).2.chain = idx.nodes.length :: idx.chain ∧
    (graph_insert idx node false).2.chain ≠ idx.chain := by
  rw [graph_insert, if_neg he]
  exact ⟨rfl, rfl, by simp⟩

/-- Witness for claim C5 at a concrete one-element index. -/
theorem claim_C5_witness :
    idxC8.elements ≠ 0 ∧
    ((graph_insert idxC8 nodeC5 false).1 = SYSTEM_ERROR ∧
     (graph_insert idxC8 nodeC5 false).2.chain = idxC8.nodes.length :: idxC8.chain ∧
     (graph_insert idxC8 nodeC5 false).2.chain ≠ idxC8.chain) :=
  ⟨by decide, claim_C5 idxC8 nodeC5 (by decide)⟩

/-! ## Claim C7 -/

/-- Claim C7, amended.  The level-0 `search_layer` of `graph_knn_search`
does run with the alive filter on, but its breadth is
`k > ef_search ? 2*k : ef_search`, not `max(ef_search, 2*k)` as the
specification says; the two agree except when `k ≤ ef_search < 2*k`. -/
theorem claim_C7 {V D : Type} (idx : IndexHNSW V D) (v : V) (R : CHeap (HNode D))
    (k : Nat) :
    (bottomContext (⟨v, idx.cmp, false⟩ : SearchContext V D)).filter_alive = true ∧
    knnBottomEf idx.ef_search k =
      (if idx.ef_search < k then k * 2 else idx.ef_search) ∧
    graph_knn_search idx v R k =
      (SUCCESS,
        knn_fill
          (heap_size (select_neighbors (bottomContext ⟨v, idx.cmp, false⟩) idx.nodes
            (search_layer (bottomContext ⟨v, idx.cmp, false⟩) idx.nodes
              [greedy_descend ⟨v, idx.cmp, false⟩ idx.nodes idx.top_level idx.top_level
                idx.gentry]
              (knnBottomEf idx.ef_search k) 0) k 0 0))
          (select_neighbors (bottomContext ⟨v, idx.cmp, false⟩) idx.nodes
            (search_layer (bottomContext ⟨v, idx.cmp, false⟩) idx.nodes
              [greedy_descend ⟨v, idx.cmp, false⟩ idx.nodes idx.top_level idx.top_level
                idx.gentry]
              (knnBottomEf idx.ef_search k) 0) k 0 0) R) :=
  ⟨rfl, rfl, rfl⟩

/-- Counterexample for claim C7 as frozen: with `ef_search = 3` and
`k = 2` the code searches with breadth `3`, not `max(3, 4) = 4`. -/
theorem claim_C7_counterexample :
    knnBottomEf 3 2 = 3 ∧ max 3 (2 * 2) = 4 ∧ knnBottomEf 3 2 ≠ max 3 (2 * 2) := by
  decide

/-! ## Claim C3 -/

/-- Claim C3, amended.  `dump` then `load` is *not* supported for the
HNSW index: `hnsw_functions` installs no dump function
(`idx->dump = NULL`), so `dump` returns `NOT_IMPLEMENTED`, and the
`switch` of `load_index` handles only `FLAT_INDEX`, answering
`NOT_IMPLEMENTED` for an HNSW file.  Only the flat index round-trips. -/
theorem claim_C3 {V D : Type} (idx : FIndex V D) (flatLoad : ErrorCode) :
    facade_dump (hnsw_dump_slot (V := V) (D := D)) idx = NOT_IMPLEMENTED ∧
    load_index_dispatch flatLoad HNSW_INDEX = NOT_IMPLEMENTED ∧
    load_index_dispatch flatLoad FLAT_INDEX = flatLoad ∧
    NOT_IMPLEMENTED ≠ SUCCESS :=
  ⟨rfl, rfl, rfl, by decide⟩

/-- Counterexample for claim C3 as frozen, at a concrete HNSW index:
neither its dump nor the load dispatch succeeds. -/
theorem claim_C3_counterexample :
    facade_dump (hnsw_dump_slot (V := Nat) (D := Nat))
      (alloc_index_hnsw natCmp 4 none) ≠ SUCCESS ∧
    load_index_dispatch SUCCESS HNSW_INDEX ≠ SUCCESS := by
  decide

/-! ## Claim C6 -/

/-- Claim C6.  The specification says a search on an empty HNSW index
returns `INDEX_EMPTY`.  `hnsw_search` performs no element-count check:
on an empty index the graph search runs vacuously and the call returns
`SUCCESS` with the output untouched.  The spec claim is refuted. -/
theorem claim_C6 :
    idxC6.elements = 0 ∧
    hnsw_search idxC6 0 0 4 (List.replicate 5 ⟨9, 9⟩) 5 =
      (SUCCESS, List.replicate 5 ⟨9, 9⟩) ∧
    SUCCESS ≠ INDEX_EMPTY := by
  decide

/-! ## Claim C2 -/

/-- Claim C2.  The tag-filtered linear scan of `graph_linear_search`
tests only `!tag || (tag & node->tag)` and never the `alive` flag: on a
reachable state (insert `id = 5, tag = 1`, then delete it) a tag query
returns the deleted id 5 even though its node has `alive = 0`.  The spec
claim ("no query ever returns an id whose node has alive = 0") is
refuted for the linear path. -/
theorem claim_C2 :
    ((idxC2.nodes[0]?).map GraphNode.alive) = some false ∧
    ((idxC2.nodes[0]?).map (fun g => g.vector.id)) = some 5 ∧
    (hnsw_search idxC2 1 7 4 [⟨0, 0⟩] 1).2 = [⟨5, 0⟩] := by
  decide

/-! ## Claim C1

`graph_insert` calls `select_neighbors` with the flag word
`SELECT_NEIGHBORS_HEURISTIC | HEURISTIC_KEEP_PRUNED |
HEURISTIC_EXTEND_CANDIDATES` (= 13), but `select_neighbors` dispatches
on `heuristic == SELECT_NEIGHBORS_HEURISTIC` — an equality test against
1, not a flag test — so the insertion path always falls through to the
naive worst-pop truncation and the heuristic is dead code there.  The
concrete instance below separates the two selectors. -/

/-- A table-driven comparison method on four points 0..3:
`d(0,1) = 1`, `d(0,2) = 2`, `d(0,3) = 3`, `d(1,2) = 1`, everything else
far (10); smaller is better. -/
def tbl : Nat → Nat → Nat := fun x y =>
  if x = y then 0
  else if (x = 0 ∧ y = 1) ∨ (x = 1 ∧ y = 0) then 1
  else if (x = 0 ∧ y = 2) ∨ (x = 2 ∧ y = 0) then 2
  else if (x = 0 ∧ y = 3) ∨ (x = 3 ∧ y = 0) then 3
  else if (x = 1 ∧ y = 2) ∨ (x = 2 ∧ y = 1) then 1
  else 10

def tblCmp : CmpMethod Nat Nat := ⟨1000, fun a b => decide (a < b), tbl⟩

/-- An isolated alive node for point `p`. -/
def nodeOf (p : Nat) : GraphNode Nat :=
  { vector := ⟨p, 0, p⟩, level := 0, alive := true, idegree := fun _ => 0,
    neighbors := fun _ => [] }

def nodesC1 : List (GraphNode Nat) := [nodeOf 1, nodeOf 2, nodeOf 3]

/-- Query at point 0, no alive filter (as in the insertion path). -/
def scC1 : SearchContext Nat Nat := ⟨0, tblCmp, false⟩

/-- The candidate heap a level search would hand to the selector: the
three points with their distances to the query. -/
def WC1 : CHeap (HNode Nat) :=
  [(⟨0, 1⟩ : HNode Nat), ⟨1, 2⟩, ⟨2, 3⟩].foldl (fun h x => (heap_insert h x).getD h)
    (newWorstHeap tblCmp 10)

/-- Pop a heap into a list, root first. -/
def heapDrain {α : Type} : Nat → CHeap α → List α
  | 0, _ => []
  | fuel + 1, h =>
    match heap_pop h with
    | none => []
    | some (x, h') => x :: heapDrain fuel h'

/-- Claim C1.  The specification says the neighbors connected during
insertion are the output of `select_neighbors_heuristic` under
`KEEP_PRUNED | EXTEND_CANDIDATES`.  In the code, `select_neighbors`
compares the flag word 13 for *equality* with
`SELECT_NEIGHBORS_HEURISTIC` (= 1), so for the flag word the insertion
path passes it always takes the naive truncation branch — and on the
concrete candidate set the two selectors keep different neighbors
(naive keeps points 1 and 2; the heuristic keeps 1 and 3, pruning 2 as
redundant with 1).  The spec claim is refuted. -/
theorem claim_C1 :
    (∀ {V D : Type} (sc : SearchContext V D) (nodes : List (GraphNode V))
       (W : CHeap (HNode D)) (M level : Nat),
       select_neighbors sc nodes W M
         (SELECT_NEIGHBORS_HEURISTIC ||| HEURISTIC_KEEP_PRUNED |||
           HEURISTIC_EXTEND_CANDIDATES) level =
       selectPopExtra (heap_size W - M) W) ∧
    heapDrain
      (heap_size (select_neighbors scC1 nodesC1 WC1 2
        (SELECT_NEIGHBORS_HEURISTIC ||| HEURISTIC_KEEP_PRUNED |||
          HEURISTIC_EXTEND_CANDIDATES) 0))
      (select_neighbors scC1 nodesC1 WC1 2
        (SELECT_NEIGHBORS_HEURISTIC ||| HEURISTIC_KEEP_PRUNED |||
          HEURISTIC_EXTEND_CANDIDATES) 0) = [⟨1, 2⟩, ⟨0, 1⟩] ∧
    heapDrain
      (heap_size (select_neighbors_heuristic scC1 nodesC1 WC1 2
        (SELECT_NEIGHBORS_HEURISTIC ||| HEURISTIC_KEEP_PRUNED |||
          HEURISTIC_EXTEND_CANDIDATES) 0))
      (select_neighbors_heuristic scC1 nodesC1 WC1 2
        (SELECT_NEIGHBORS_HEURISTIC ||| HEURISTIC_KEEP_PRUNED |||
          HEURISTIC_EXTEND_CANDIDATES) 0) = [⟨2, 3⟩, ⟨0, 1⟩] ∧
    ([⟨1, 2⟩, ⟨0, 1⟩] : List (HNode Nat)) ≠ [⟨2, 3⟩, ⟨0, 1⟩] := by
  refine ⟨?_, by decide, by decide, by decide⟩
  intro V D sc nodes W M level
  rw [select_neighbors, if_neg (by decide)]

/-! ## Claim C8 -/

/-- `hnswEmit` never touches a slot at or above `i + fuel`: the graph
path of `hnsw_search` leaves unused result slots as the caller passed
them. -/
theorem hnswEmit_untouched {V D : Type} (nodes : List (GraphNode V)) (m : Nat) :
    ∀ (fuel : Nat) (R : CHeap (HNode D)) (res : List (MatchResult D)) (i j : Nat),
      i + fuel ≤ j → (hnswEmit nodes m fuel R res i)[j]? = res[j]? := by
  intro fuel
  induction fuel with
  | zero => intro R res i j h; rfl
  | succ fuel ih =>
    intro R res i j h
    rw [hnswEmit]
    by_cases hi : i < m
    · rw [if_pos hi]
      split
      · rfl
      · rw [ih _ _ (i + 1) j (by omega), List.getElem?_set_ne (by omega)]
    · rw [if_neg hi]

/-- `linEmit` never touches a slot at or above its fuel (the written
slots are `fuel - 1, …, 0`). -/
theorem linEmit_untouched {V D : Type} (nodes : List (GraphNode V)) :
    ∀ (fuel : Nat) (hp : CHeap (HNode D)) (res : List (MatchResult D)) (j : Nat),
      fuel ≤ j → (linEmit nodes fuel hp res)[j]? = res[j]? := by
  intro fuel
  induction fuel with
  | zero => intro hp res j h; rfl
  | succ fuel ih =>
    intro hp res j h
    rw [linEmit]
    split
    · rfl
    · rw [ih _ _ j (by omega), List.getElem?_set_ne (by omega)]

theorem writeSentinels_succ {V D : Type} (cmp : CmpMethod V D)
    (res : List (MatchResult D)) (n : Nat) :
    writeSentinels cmp res (n + 1) =
      (writeSentinels cmp res n).set n (sentinelResult cmp) := by
  rw [writeSentinels, writeSentinels, List.range_succ, List.foldl_append]
  rfl

theorem writeSentinels_length {V D : Type} (cmp : CmpMethod V D)
    (res : List (MatchResult D)) :
    ∀ n, (writeSentinels cmp res n).length = res.length := by
  intro n
  induction n with
  | zero => rfl
  | succ n ih => rw [writeSentinels_succ, List.length_set, ih]

/-- Every slot below both `n` and the array length holds the sentinel
after the initialization loop of `graph_linear_search`. -/
theorem writeSentinels_get {V D : Type} (cmp : CmpMethod V D)
    (res : List (MatchResult D)) :
    ∀ n j, j < n → j < res.length →
      (writeSentinels cmp res n)[j]? = some (sentinelResult cmp) := by
  intro n
  induction n with
  | zero => intro j hj; omega
  | succ n ih =>
    intro j hj hres
    rw [writeSentinels_succ]
    by_cases hjn : j = n
    · subst hjn
      exact List.getElem?_set_eq_of_lt _ (by rw [writeSentinels_length]; exact hres)
    · rw [List.getElem?_set_ne (fun hc => hjn hc.symm)]
      exact ih j (by omega) hres

/-- Claim C8, amended.  Unused result slots are sentinel-filled only on
the linear tag-filtered path (which pre-initializes `result[0..n)` with
`(id = 0, distance = worst)` and then overwrites the first `heap_size`
slots); the graph path of `hnsw_search` writes only the matches it found
and leaves the remaining slots exactly as the caller passed them. -/
theorem claim_C8 {V D : Type} (nodes : List (GraphNode V)) (m fuel : Nat)
    (R : CHeap (HNode D)) (res : List (MatchResult D)) (i j : Nat) (hij : i + fuel ≤ j)
    (idx : IndexHNSW V D) (tag : Nat) (v : V) (result : List (MatchResult D)) (n k : Nat)
    (hchain : idx.chain ≠ []) (hk : heap_size (linScanHeap idx tag v n) ≤ k)
    (hkn : k < n) (hn : n ≤ result.length) :
    (hnswEmit nodes m fuel R res i)[j]? = res[j]? ∧
    ((graph_linear_search idx tag v result n).2)[k]? = some (sentinelResult idx.cmp) := by
  refine ⟨hnswEmit_untouched nodes m fuel R res i j hij, ?_⟩
  rw [graph_linear_search, if_neg hchain]
  show (linEmit idx.nodes (heap_size (linScanHeap idx tag v n)) (linScanHeap idx tag v n)
    (writeSentinels idx.cmp result n))[k]? = _
  rw [linEmit_untouched idx.nodes _ _ _ k hk]
  exact writeSentinels_get idx.cmp result n k hkn (by omega)

/-- Witness for claim C8 at concrete inputs: a marker entry `⟨9, 9⟩`
survives the graph-path emission untouched, and the linear path stores
the sentinel in its unused slot. -/
theorem claim_C8_witness :
    (5 + 2 ≤ 7 ∧ idxC8.chain ≠ [] ∧ heap_size (linScanHeap idxC8 1 7 1) ≤ 0 ∧
      0 < 1 ∧ 1 ≤ ([⟨9, 9⟩] : List (MatchResult Nat)).length) ∧
    ((hnswEmit ([] : List (GraphNode Nat)) 3 2 (newBestHeap natCmp)
        ([⟨9, 9⟩] : List (MatchResult Nat)) 5)[7]? =
      ([⟨9, 9⟩] : List (MatchResult Nat))[7]? ∧
     ((graph_linear_search idxC8 1 7 ([⟨9, 9⟩] : List (MatchResult Nat)) 1).2)[0]? =
      some (sentinelResult idxC8.cmp)) :=
  ⟨⟨by decide, by decide, by decide, by decide, by decide⟩,
    claim_C8 [] 3 2 (newBestHeap natCmp) [⟨9, 9⟩] 5 7 (by decide) idxC8 1 7 [⟨9, 9⟩] 1 0
      (by decide) (by decide) (by decide) (by decide)⟩

/-- Counterexample for claim C8 as frozen: on the graph path a search
finding one match with `k = 3` leaves the caller's markers `⟨9, 9⟩` in
the two unused slots — they do not carry the sentinel
`(id = 0, distance = worst_match_value)`. -/
theorem claim_C8_counterexample :
    hnsw_search idxC8 0 7 4 [⟨9, 9⟩, ⟨9, 9⟩, ⟨9, 9⟩] 3 =
      (SUCCESS, [⟨1, 0⟩, ⟨9, 9⟩, ⟨9, 9⟩]) ∧
    (⟨9, 9⟩ : MatchResult Nat) ≠ sentinelResult natCmp := by
  decide

/-! ## Claim C4 -/

theorem getD_replicate_nil {β : Type} (s i : Nat) :
    (List.replicate s ([] : List β)).getD i [] = [] := by
  by_cases h : i < s
  · rw [List.getD_eq_getElem _ _ (by simpa using h)]
    exact List.getElem_replicate ..
  · rw [List.getD_eq_default _ _ (by simpa using Nat.le_of_not_lt h)]

theorem flatten_replicate_nil {β : Type} :
    ∀ s : Nat, (List.replicate s ([] : List β)).flatten = [] := by
  intro s
  induction s with
  | zero => rfl
  | succ s ih =>
    rw [List.replicate_succ, List.flatten_cons, ih]
    rfl

/-- The map built by `init_map` is well-formed. -/
theorem init_map_wf (s t : Nat) (hs : 0 < s) : MapWF (init_map s t) := by
  refine ⟨hs, by simp [init_map], ?_, ?_⟩
  · intro i hi kv hkv
    rw [show (init_map s t).buckets = List.replicate s [] from rfl,
      getD_replicate_nil] at hkv
    exact absurd hkv (List.not_mem_nil kv)
  · show (0 : Nat) = map_entries (init_map s t)
    rw [map_entries, show (init_map s t).buckets = List.replicate s [] from rfl,
      flatten_replicate_nil]
    rfl

/-- `hnsw_insert` with matching dimensions and a healthy allocator
always succeeds and reports the arena index of the new node. -/
theorem hnsw_insert_ok {V D : Type} (idx : IndexHNSW V D) (id tag : Nat) (v : V)
    (level : Nat) :
    hnsw_insert idx id tag v idx.dims level true =
      (SUCCESS, (graph_insert idx (alloc_graph_node id tag v level) true).2,
        some idx.nodes.length) := by
  have h1 := (graph_insert_spec idx (alloc_graph_node id tag v level)).1
  simp only [hnsw_insert]
  rw [if_neg (fun hc => hc rfl), if_neg (fun hc => hc h1)]

/-- `insert` of `index.c` and the id map: the map stays well-formed and
its element count grows exactly on `SUCCESS`. -/
theorem facade_insert_inv {V D : Type} (idx : FIndex V D) (id : Nat) (v : V)
    (dims level : Nat) (hwf : MapWF idx.map) :
    MapWF (facade_insert idx id v dims level).2.map ∧
    (facade_insert idx id v dims level).2.map.elements =
      idx.map.elements +
        (if (facade_insert idx id v dims level).1 = SUCCESS then 1 else 0) := by
  by_cases h0 : id = NULL_ID
  · rw [facade_insert, if_pos h0]
    exact ⟨hwf, rfl⟩
  · rw [facade_insert, if_neg h0]
    by_cases hdup : map_has idx.map id = true
    · rw [if_pos hdup]
      exact ⟨hwf, rfl⟩
    · rw [if_neg hdup]
      by_cases hd : dims = idx.data.dims
      · subst hd
        rw [hnsw_insert_ok]
        refine ⟨map_insert_wf hwf id idx.data.nodes.length, ?_⟩
        show (map_insert idx.map id idx.data.nodes.length).elements =
          idx.map.elements + 1
        exact map_insert_elements id idx.data.nodes.length
      · have hno : hnsw_insert idx.data id 0 v dims level true =
            (INVALID_DIMENSIONS, idx.data, none) := by
          rw [hnsw_insert, if_pos hd]
        rw [hno]
        exact ⟨hwf, rfl⟩

/-- `delete` of `index.c` and the id map: the map stays well-formed, its
element count shrinks exactly on `SUCCESS`, and a successful delete
needs a non-empty map. -/
theorem facade_delete_inv {V D : Type} (idx : FIndex V D) (id : Nat)
    (hwf : MapWF idx.map) :
    MapWF (facade_delete idx id).2.map ∧
    (facade_delete idx id).2.map.elements +
      (if (facade_delete idx id).1 = SUCCESS then 1 else 0) = idx.map.elements ∧
    ((facade_delete idx id).1 = SUCCESS → 0 < idx.map.elements) := by
  by_cases h0 : id = NULL_ID
  · rw [facade_delete, if_pos h0]
    exact ⟨hwf, rfl, fun hc => ErrorCode.noConfusion hc⟩
  · rw [facade_delete, if_neg h0]
    cases hg : map_get_p idx.map id with
    | none => exact ⟨hwf, rfl, fun hc => ErrorCode.noConfusion hc⟩
    | some nid =>
      have hhas : map_has idx.map id = true := by
        rw [← map_get_safe_isSome]
        show (map_get_p idx.map id).isSome = true
        rw [hg]
        rfl
      have hsome : (map_remove_safe idx.map id).isSome = true := by
        rw [map_remove_safe_isSome]
        exact hhas
      cases hrm : map_remove_safe idx.map id with
      | none =>
        rw [hrm] at hsome
        exact absurd hsome (by simp)
      | some vm =>
        obtain ⟨v', m'⟩ := vm
        obtain ⟨hwf', helts, _⟩ := map_remove_safe_spec hwf hrm
        exact ⟨hwf', helts, fun _ => by omega⟩

/-- A façade operation: insertion (with the level its node would draw)
or deletion. -/
inductive FOp (V : Type) where
  | ins (id : Nat) (v : V) (level : Nat)
  | del (id : Nat)

/-- Run one façade operation, counting successful insertions and
successful deletions. -/
def fop_apply {V D : Type} (dims : Nat) (st : FIndex V D × Nat × Nat) (op : FOp V) :
    FIndex V D × Nat × Nat :=
  match op with
  | FOp.ins id v level =>
    let r := facade_insert st.1 id v dims level
    (r.2, st.2.1 + (if r.1 = SUCCESS then 1 else 0), st.2.2)
  | FOp.del id =>
    let r := facade_delete st.1 id
    (r.2, st.2.1, st.2.2 + (if r.1 = SUCCESS then 1 else 0))

/-- Run a sequence of façade operations. -/
def fop_run {V D : Type} (dims : Nat) (st : FIndex V D × Nat × Nat)
    (ops : List (FOp V)) : FIndex V D × Nat × Nat :=
  ops.foldl (fop_apply dims) st

theorem fop_apply_inv {V D : Type} (dims : Nat) (st : FIndex V D × Nat × Nat)
    (op : FOp V) (h1 : MapWF st.1.map) (h2 : st.2.2 ≤ st.2.1)
    (h3 : st.1.map.elements = st.2.1 - st.2.2) :
    MapWF (fop_apply dims st op).1.map ∧
    (fop_apply dims st op).2.2 ≤ (fop_apply dims st op).2.1 ∧
    (fop_apply dims st op).1.map.elements =
      (fop_apply dims st op).2.1 - (fop_apply dims st op).2.2 := by
  cases op with
  | ins id v level =>
    obtain ⟨hw, he⟩ := facade_insert_inv st.1 id v dims level h1
    show MapWF (facade_insert st.1 id v dims level).2.map ∧
      st.2.2 ≤ st.2.1 + (if (facade_insert st.1 id v dims level).1 = SUCCESS then 1 else 0) ∧
      (facade_insert st.1 id v dims level).2.map.elements =
        st.2.1 + (if (facade_insert st.1 id v dims level).1 = SUCCESS then 1 else 0) -
          st.2.2
    refine ⟨hw, ?_, ?_⟩
    · by_cases hS : (facade_insert st.1 id v dims level).1 = SUCCESS
      · rw [if_pos hS]; omega
      · rw [if_neg hS]; omega
    · by_cases hS : (facade_insert st.1 id v dims level).1 = SUCCESS
      · rw [if_pos hS]; rw [if_pos hS] at he; omega
      · rw [if_neg hS]; rw [if_neg hS] at he; omega
  | del id =>
    obtain ⟨hw, he, hpos⟩ := facade_delete_inv st.1 id h1
    show MapWF (facade_delete st.1 id).2.map ∧
      st.2.2 + (if (facade_delete st.1 id).1 = SUCCESS then 1 else 0) ≤ st.2.1 ∧
      (facade_delete st.1 id).2.map.elements =
        st.2.1 - (st.2.2 + (if (facade_delete st.1 id).1 = SUCCESS then 1 else 0))
    refine ⟨hw, ?_, ?_⟩
    · by_cases hS : (facade_delete st.1 id).1 = SUCCESS
      · rw [if_pos hS]
        have := hpos hS
        omega
      · rw [if_neg hS]; omega
    · by_cases hS : (facade_delete st.1 id).1 = SUCCESS
      · rw [if_pos hS]; rw [if_pos hS] at he
        have := hpos hS
        omega
      · rw [if_neg hS]; rw [if_neg hS] at he; omega

theorem fop_run_inv {V D : Type} (dims : Nat) :
    ∀ (ops : List (FOp V)) (st : FIndex V D × Nat × Nat),
      MapWF st.1.map → st.2.2 ≤ st.2.1 → st.1.map.elements = st.2.1 - st.2.2 →
      MapWF (fop_run dims st ops).1.map ∧
      (fop_run dims st ops).2.2 ≤ (fop_run dims st ops).2.1 ∧
      (fop_run dims st ops).1.map.elements =
        (fop_run dims st ops).2.1 - (fop_run dims st ops).2.2 := by
  intro ops
  induction ops with
  | nil => intro st h1 h2 h3; exact ⟨h1, h2, h3⟩
  | cons op ops ih =>
    intro st h1 h2 h3
    obtain ⟨hw, hle, he⟩ := fop_apply_inv dims st op h1 h2 h3
    have hrun : fop_run dims st (op :: ops) = fop_run dims (fop_apply dims st op) ops := by
      rw [fop_run, fop_run, List.foldl_cons]
    rw [hrun]
    exact ih (fop_apply dims st op) hw hle he

/-- Claim C4, amended.  After any sequence of façade operations on a
fresh index in which `n` insertions and `d` deletions succeed, the
`size` operation reports `n − d` — the id-map's element count — and not
`n` as the specification says: `size` reads `index->map.elements`, and
a successful deletion removes the id from the map, decrementing it. -/
theorem claim_C4 {V D : Type} (cmp : CmpMethod V D) (dims dims' : Nat)
    (ctx : Option HNSWContext) (ops : List (FOp V)) :
    facade_size (fop_run dims' (alloc_index_hnsw cmp dims ctx, 0, 0) ops).1 =
      (fop_run dims' (alloc_index_hnsw cmp dims ctx, 0, 0) ops).2.1 -
        (fop_run dims' (alloc_index_hnsw cmp dims ctx, 0, 0) ops).2.2 ∧
    (fop_run dims' (alloc_index_hnsw cmp dims ctx, 0, 0) ops).2.2 ≤
      (fop_run dims' (alloc_index_hnsw cmp dims ctx, 0, 0) ops).2.1 := by
  obtain ⟨hw, hle, he⟩ := fop_run_inv dims' ops (alloc_index_hnsw cmp dims ctx, 0, 0)
    (init_map_wf 100000 15 (by decide)) (Nat.le_refl 0) rfl
  exact ⟨he, hle⟩

/-- Counterexample for claim C4 as frozen: one insertion (`n = 1`)
followed by one successful deletion (`d = 1`) leaves `size = 0`, not
`n = 1`. -/
theorem claim_C4_counterexample :
    facade_size
      (facade_delete (facade_insert (alloc_index_hnsw natCmp 4 none) 1 7 4 0).2 1).2 = 0 ∧
    (0 : Nat) ≠ 1 := by
  decide

/-! ## Claim C10 -/

/-- Skeleton equality transports "every node is alive". -/
theorem SkelEq.alive_all {V : Type} {a b : List (GraphNode V)} (h : SkelEq a b)
    (ha : ∀ g ∈ a, g.alive = true) : ∀ g ∈ b, g.alive = true := by
  intro g hg
  obtain ⟨i, hi, rfl⟩ := List.mem_iff_getElem.mp hg
  have h2 := h.2 i
  have hia : i < a.length := by
    have := h.1
    omega
  rw [List.getElem?_eq_getElem hi, List.getElem?_eq_getElem hia] at h2
  simp only [Option.map_some'] at h2
  have h3 := Option.some.inj h2
  have h4 : b[i].alive = a[i].alive :=
    congrArg (fun t : CVector V × Bool × Nat => t.2.1) h3
  rw [h4]
  exact ha a[i] (List.getElem_mem hia)

theorem length_filterMap_of_isSome {β γ : Type} (f : β → Option γ) :
    ∀ l : List β, (∀ a ∈ l, (f a).isSome = true) → (l.filterMap f).length = l.length := by
  intro l
  induction l with
  | nil => intro h; rfl
  | cons a l ih =>
    intro h
    cases hf : f a with
    | none =>
      have := h a (List.mem_cons_self a l)
      rw [hf] at this
      exact absurd this (by simp)
    | some c =>
      rw [List.filterMap_cons_some hf, List.length_cons, List.length_cons,
        ih (fun x hx => h x (List.mem_cons_of_mem a hx))]

theorem mem_zip_left {β γ : Type} (l : List β) (L : List γ) (hlen : l.length ≤ L.length) :
    ∀ v ∈ l, ∃ vl ∈ l.zip L, vl.1 = v := by
  intro v hv
  obtain ⟨i, hi, rfl⟩ := List.mem_iff_getElem.mp hv
  have hiz : i < (l.zip L).length := by
    rw [List.length_zip]
    omega
  refine ⟨(l.zip L)[i], List.getElem_mem hiz, ?_⟩
  rw [List.getElem_zip]

/-- A fresh map holds no key. -/
theorem map_has_init (s t k : Nat) : map_has (init_map s t) k = false := by
  rw [map_has]
  have hb : (init_map s t).buckets.getD (map_hash (init_map s t) k) [] = [] := by
    rw [show (init_map s t).buckets = List.replicate s [] from rfl, getD_replicate_nil]
  rw [hb]
  rfl

/-- One import step on an id the map does not hold yet: every mode runs
the insertion and registers the id. -/
theorem hnsw_import_step_fresh {V D : Type} (mode : ImportMode) (level : Nat)
    (st : IndexHNSW V D × CMap) (vec : CVector V)
    (hfresh : map_has st.2 vec.id = false) :
    hnsw_import_step mode level st vec =
      ((graph_insert st.1 { alloc_graph_node 0 0 vec.vec level with vector := vec }
          true).2,
        map_insert st.2 vec.id st.1.nodes.length) := by
  have hgs := (graph_insert_spec st.1
    { alloc_graph_node 0 0 vec.vec level with vector := vec }).1
  simp only [hnsw_import_step]
  rw [if_neg (fun hc => Bool.noConfusion (hfresh ▸ hc)),
    if_neg (fun hc => hc hgs)]

/-- The import fold over fresh, pairwise distinct ids: the map stays
well-formed, every arena node stays alive, map membership is monotone,
and every imported id ends up registered. -/
theorem import_fold_inv {V D : Type} (mode : ImportMode) :
    ∀ (l : List (CVector V × Nat)) (st : IndexHNSW V D × CMap),
      MapWF st.2 →
      (∀ g ∈ st.1.nodes, g.alive = true) →
      (∀ vl ∈ l, map_has st.2 vl.1.id = false) →
      ((l.map (fun vl => vl.1.id)).Nodup) →
      MapWF (l.foldl (fun s vl => hnsw_import_step mode vl.2 s vl.1) st).2 ∧
      (∀ g ∈ (l.foldl (fun s vl => hnsw_import_step mode vl.2 s vl.1) st).1.nodes,
        g.alive = true) ∧
      (∀ k, map_has st.2 k = true →
        map_has (l.foldl (fun s vl => hnsw_import_step mode vl.2 s vl.1) st).2 k = true) ∧
      (∀ vl ∈ l,
        map_has (l.foldl (fun s vl => hnsw_import_step mode vl.2 s vl.1) st).2 vl.1.id =
          true) := by
  intro l
  induction l with
  | nil =>
    intro st h1 h2 h3 h4
    exact ⟨h1, h2, fun k hk => hk, fun vl hvl => absurd hvl (List.not_mem_nil vl)⟩
  | cons vl l ih =>
    intro st h1 h2 h3 h4
    have hfresh : map_has st.2 vl.1.id = false := h3 vl (List.mem_cons_self vl l)
    have heq := hnsw_import_step_fresh mode vl.2 st vl.1 hfresh
    simp only [List.foldl_cons, heq]
    have hwf' : MapWF (map_insert st.2 vl.1.id st.1.nodes.length) :=
      map_insert_wf h1 vl.1.id _
    have halive' : ∀ g ∈ (graph_insert st.1
        { alloc_graph_node 0 0 vl.1.vec vl.2 with vector := vl.1 } true).2.nodes,
        g.alive = true := by
      have hspec := graph_insert_spec st.1
        { alloc_graph_node 0 0 vl.1.vec vl.2 with vector := vl.1 }
      refine SkelEq.alive_all hspec.2.1 ?_
      intro g hg
      rcases List.mem_append.mp hg with hga | hgb
      · exact h2 g hga
      · rw [List.mem_singleton.mp hgb]
        rfl
    have hmono1 : ∀ k, map_has st.2 k = true →
        map_has (map_insert st.2 vl.1.id st.1.nodes.length) k = true := by
      intro k hk
      rw [map_has_iff_count hwf' k, map_insert_count h1 vl.1.id _ k]
      have := (map_has_iff_count h1 k).mp hk
      omega
    have hnew : map_has (map_insert st.2 vl.1.id st.1.nodes.length) vl.1.id = true := by
      rw [map_has_iff_count hwf' vl.1.id, map_insert_count h1 vl.1.id _ vl.1.id,
        if_pos rfl]
      omega
    have hids : (vl.1.id :: l.map (fun x => x.1.id)).Nodup := by simpa using h4
    have hrest : ∀ vl' ∈ l,
        map_has (map_insert st.2 vl.1.id st.1.nodes.length) vl'.1.id = false := by
      intro vl' hvl'
      have hne : vl'.1.id ≠ vl.1.id := by
        intro hc
        have hnotin := (List.nodup_cons.mp hids).1
        exact hnotin (hc ▸ List.mem_map_of_mem (fun x => x.1.id) hvl')
      have h0 : map_has st.2 vl'.1.id = false := h3 vl' (List.mem_cons_of_mem vl hvl')
      have hc0 : map_count st.2 vl'.1.id = 0 := by
        by_contra hpos
        have hx : map_has st.2 vl'.1.id = true :=
          (map_has_iff_count h1 vl'.1.id).mpr (Nat.pos_of_ne_zero hpos)
        rw [h0] at hx
        exact Bool.noConfusion hx
      cases hhas : map_has (map_insert st.2 vl.1.id st.1.nodes.length) vl'.1.id with
      | false => rfl
      | true =>
        have hy := (map_has_iff_count hwf' vl'.1.id).mp hhas
        rw [map_insert_count h1 vl.1.id _ vl'.1.id, if_neg hne, hc0] at hy
        exact absurd hy (by omega)
    obtain ⟨iwf, ialive, imono, iall⟩ := ih
      ((graph_insert st.1 { alloc_graph_node 0 0 vl.1.vec vl.2 with vector := vl.1 }
          true).2,
        map_insert st.2 vl.1.id st.1.nodes.length)
      hwf' halive' hrest (List.nodup_cons.mp hids).2
    refine ⟨iwf, ialive, ?_, ?_⟩
    · intro k hk
      exact imono k (hmono1 k hk)
    · intro vl' hvl'
      rcases List.mem_cons.mp hvl' with hvl0 | hvl'
      · rw [hvl0]
        exact imono _ hnew
      · exact iall vl' hvl'

/-- Claim C10.  `hnsw_export` walks the forward chain and emits one
vector record per node with no test of the `alive` flag, and
`hnsw_import` re-creates every imported vector as a fresh node with
`alive = 1`, registering its id: importing the export of an index into
an empty index makes every exported id — deleted ones included —
answer `contains = true` again, and every node of the rebuilt index is
alive. -/
theorem claim_C10 {V D : Type} (idx tgt : IndexHNSW V D) (fmap : CMap)
    (levels : List Nat) (mode : ImportMode)
    (hvalid : ∀ cid ∈ idx.chain, cid < idx.nodes.length)
    (htgt : tgt.nodes = [])
    (hwf : MapWF fmap)
    (hempty : ∀ k, map_has fmap k = false)
    (hnodup : ((hnsw_export idx).map (fun v => v.id)).Nodup) :
    (hnsw_export idx).length = idx.chain.length ∧
    (∀ cid ∈ idx.chain, ∀ g, idx.nodes[cid]? = some g → g.vector ∈ hnsw_export idx) ∧
    (∀ v ∈ hnsw_export idx,
      map_has (hnsw_import tgt fmap (hnsw_export idx) levels mode).2 v.id = true) ∧
    (∀ g ∈ (hnsw_import tgt fmap (hnsw_export idx) levels mode).1.nodes,
      g.alive = true) := by
  have hlen : (hnsw_export idx).length ≤
      (levels ++ List.replicate (hnsw_export idx).length 0).length := by
    rw [List.length_append, List.length_replicate]
    omega
  have hnodup' : (((hnsw_export idx).zip
      (levels ++ List.replicate (hnsw_export idx).length 0)).map
        (fun vl => vl.1.id)).Nodup := by
    have hfst := List.map_fst_zip (hnsw_export idx)
      (levels ++ List.replicate (hnsw_export idx).length 0) hlen
    have hmm : ((hnsw_export idx).zip
        (levels ++ List.replicate (hnsw_export idx).length 0)).map
          (fun vl => vl.1.id) =
        (((hnsw_export idx).zip
          (levels ++ List.replicate (hnsw_export idx).length 0)).map
            Prod.fst).map (fun v => v.id) := by
      rw [List.map_map]
      rfl
    rw [hmm, hfst]
    exact hnodup
  obtain ⟨iwf, ialive, imono, iall⟩ := import_fold_inv mode
    ((hnsw_export idx).zip (levels ++ List.replicate (hnsw_export idx).length 0))
    (tgt, fmap) hwf
    (by
      intro g hg
      rw [show (tgt, fmap).1.nodes = tgt.nodes from rfl, htgt] at hg
      exact absurd hg (List.not_mem_nil g))
    (fun vl _ => hempty vl.1.id)
    hnodup'
  refine ⟨?_, ?_, ?_, ?_⟩
  · rw [hnsw_export]
    refine length_filterMap_of_isSome _ idx.chain ?_
    intro cid hcid
    rw [List.getElem?_eq_getElem (hvalid cid hcid)]
    rfl
  · intro cid hcid g hg
    rw [hnsw_export]
    exact List.mem_filterMap.mpr ⟨cid, hcid, by rw [hg]; rfl⟩
  · intro v hv
    obtain ⟨vl, hvl, hv1⟩ := mem_zip_left (hnsw_export idx) _ hlen v hv
    have hz := iall vl hvl
    rw [hv1] at hz
    exact hz
  · exact ialive

/-- Witness for claim C10: the one-node index whose node was deleted
(`idxC2`) is exported and imported into a fresh empty index; id 5 is
contained again and every rebuilt node is alive. -/
theorem claim_C10_witness :
    (∀ cid ∈ idxC2.chain, cid < idxC2.nodes.length) ∧
    ((hnsw_export idxC2).length = idxC2.chain.length ∧
     (∀ cid ∈ idxC2.chain, ∀ g, idxC2.nodes[cid]? = some g →
       g.vector ∈ hnsw_export idxC2) ∧
     (∀ v ∈ hnsw_export idxC2,
       map_has (hnsw_import (hnsw_init natCmp 4 none) (init_map 10 2)
         (hnsw_export idxC2) [0] ImportMode.ignore).2 v.id = true) ∧
     (∀ g ∈ (hnsw_import (hnsw_init natCmp 4 none) (init_map 10 2)
         (hnsw_export idxC2) [0] ImportMode.ignore).1.nodes, g.alive = true)) :=
  ⟨by decide,
    claim_C10 idxC2 (hnsw_init natCmp 4 none) (init_map 10 2) [0] ImportMode.ignore
      (by decide) rfl ⟨by decide, by decide, by decide, by decide⟩
      (map_has_init 10 2) (by decide)⟩

end Victor
